import Mathlib

/-!
Verification development for the ringlet repository (daemon crates
clownd / ringletd and the core crate clown-core).

Every definition below is a shallow embedding of a function of the Rust
source, translated as directly as Lean allows:

* Rust HashMap environments become insertion lists whose lookup takes the
  last binding (insert = append), or cons-lists with first-wins lookup
  when the source only ever inserts fresh keys.
* Rust HashSet String becomes a Lean List String with guarded inserts
  (the source also only inserts after a contains check, so the list never
  holds duplicates and its length is the set's size).
* Rust u32 / u64 / usize become Nat with explicit range conditions where
  the source checks them; i32 becomes Int.
* Fallible Rust functions (anyhow Result) become Option or Except.
* Filesystem and keychain side effects are recorded as explicit effect
  traces; wall-clock timestamps become Int parameters (seconds).
* Floating point cost fields and chrono DateTime payloads carried along
  unchanged by the source are not modelled; no claim mentions them.
-/

namespace Ringlet

/-! ## String helpers shared by several modules

The Rust source manipulates strings with str::replace, str::trim,
str::to_lowercase, str::starts_with, str::trim_start_matches and
str::parse::<u32>.  They are modelled below on String.data. -/

/-- Does p occur at the start of s (Rust str::starts_with). -/
def strStartsWith (p s : String) : Bool :=
  p.data.isPrefixOf s.data

/-- Replace every non-overlapping occurrence of pat (left to right) by rep
(Rust str::replace), with explicit fuel so the definition is structurally
recursive and kernel-reducible; the fuel is always at least the length of
the remaining input, so it never runs out.  The source never calls replace
with an empty pattern; this model leaves the input unchanged in that case. -/
def replaceCore (pat rep : List Char) : Nat → List Char → List Char
  | 0, l => l
  | _ + 1, [] => []
  | fuel + 1, c :: rest =>
    if pat ≠ [] ∧ pat.isPrefixOf (c :: rest) then
      rep ++ replaceCore pat rep fuel ((c :: rest).drop pat.length)
    else
      c :: replaceCore pat rep fuel rest

def replaceL (pat rep : List Char) (l : List Char) : List Char :=
  replaceCore pat rep l.length l

/-- String wrapper for replaceL; argument order follows Rust s.replace(pat, rep). -/
def strReplace (s pat rep : String) : String :=
  ⟨replaceL pat.data rep.data s.data⟩

/-- Whitespace trimming on char lists (Rust str::trim). -/
def trimL (l : List Char) : List Char :=
  ((l.dropWhile Char.isWhitespace).reverse.dropWhile Char.isWhitespace).reverse

/-- Lowercasing char by char (Rust str::to_lowercase; the source only feeds
it ASCII condition strings). -/
def lowerL (l : List Char) : List Char :=
  l.map Char.toLower

/-- Strip every repetition of a leading pattern (Rust str::trim_start_matches
with a str pattern, which removes the prefix repeatedly).  Fuel-based for
kernel reducibility; the fuel always dominates the input length. -/
def dropRepeatedCore (pat : List Char) : Nat → List Char → List Char
  | 0, l => l
  | fuel + 1, l =>
    if pat ≠ [] ∧ pat.isPrefixOf l then dropRepeatedCore pat fuel (l.drop pat.length) else l

def dropRepeated (pat l : List Char) : List Char :=
  dropRepeatedCore pat l.length l

/-- Decimal digit characters. -/
def digitChar : Nat → Char
  | 0 => '0' | 1 => '1' | 2 => '2' | 3 => '3' | 4 => '4'
  | 5 => '5' | 6 => '6' | 7 => '7' | 8 => '8' | 9 => '9'
  | _ => '*'

/-- Decimal rendering of a natural number, as Rust's Display for usize
renders counters.  Fuel-based structural recursion; the fuel n + 1 always
suffices because the argument shrinks by a factor of ten. -/
def natDecimalCore : Nat → Nat → List Char
  | 0, _ => []
  | fuel + 1, n =>
    if n < 10 then [digitChar n] else natDecimalCore fuel (n / 10) ++ [digitChar (n % 10)]

def natDecimal (n : Nat) : List Char :=
  natDecimalCore (n + 1) n

/-- Value of a digit character. -/
def digitVal (c : Char) : Nat := c.toNat - 48

/-- Value of a decimal digit string. -/
def decimalVal (l : List Char) : Nat :=
  l.foldl (fun acc c => 10 * acc + digitVal c) 0

/-- Parse of an unsigned 32-bit integer from chars (Rust str::parse::<u32>):
an optional leading plus sign, then one or more decimal digits, value at
most 4294967295; anything else fails. -/
def parseU32L (l : List Char) : Option Nat :=
  let digits := match l with
    | '+' :: rest => rest
    | other => other
  if digits ≠ [] ∧ digits.all Char.isDigit ∧ decimalVal digits ≤ 4294967295 then
    some (decimalVal digits)
  else
    none

/-! ## C7 — RoutingCondition::parse (clown-core/src/proxy.rs) -/

/-- Routing condition variants used by RoutingCondition::parse.  The source
enum has further variants (ModelPattern, All, Any) that parse never
produces; they are included for fidelity. -/
inductive RoutingCondition where
  | tokenCount (min max : Option Nat)
  | hasTools (minCount : Option Nat)
  | thinkingMode
  | modelPattern (pattern : String)
  | always
  | allOf (conditions : List RoutingCondition)
  | anyOf (conditions : List RoutingCondition)

/-- RoutingCondition::parse.  Mirrors the source: trim then lowercase the
input, recognise the exact words always and thinking, then the token and
tool comparison forms.  In the source a string starting with tokens whose
remainder has no comparison operator falls through to the tools test,
which a tokens-prefixed string can never pass, so it yields none. -/
def RoutingCondition.parse (s : String) : Option RoutingCondition :=
  let t := lowerL (trimL s.data)
  if t = "always".data then some .always
  else if t = "thinking".data then some .thinkingMode
  else if "tokens".data.isPrefixOf t then
    let rest := trimL (dropRepeated "tokens".data t)
    if rest.head? = some '>' then
      (parseU32L (trimL (rest.dropWhile (fun c => c = '>')))).map
        (fun n => .tokenCount (some n) none)
    else if rest.head? = some '<' then
      (parseU32L (trimL (rest.dropWhile (fun c => c = '<')))).map
        (fun n => .tokenCount none (some n))
    else none
  else if "tools".data.isPrefixOf t then
    let rest := trimL (dropRepeated "tools".data t)
    if ">=".data.isPrefixOf rest then
      (parseU32L (trimL (dropRepeated ">=".data rest))).map
        (fun n => .hasTools (some n))
    else if rest.head? = some '>' then
      (parseU32L (trimL (rest.dropWhile (fun c => c = '>')))).map
        (fun n => .hasTools (some (n + 1)))
    else none
  else none

/-! ## C9 — error code to HTTP status mapping (clownd/src/http/error.rs,
clown-core/src/rpc.rs error_codes) -/

def AGENT_NOT_FOUND : Int := 1001
def PROVIDER_NOT_FOUND : Int := 1002
def PROFILE_NOT_FOUND : Int := 1003
def PROFILE_EXISTS : Int := 1004
def AGENT_NOT_INSTALLED : Int := 1005
def INCOMPATIBLE_PROVIDER : Int := 1006
def INVALID_ENDPOINT : Int := 1007
def HOOKS_NOT_SUPPORTED : Int := 1008
def INVALID_HOOK_EVENT : Int := 1009
def PROXY_NOT_ENABLED : Int := 1010
def PROXY_NOT_RUNNING : Int := 1011
def PROXY_ALREADY_RUNNING : Int := 1012
def PROXY_START_FAILED : Int := 1013
def PROXY_NOT_SUPPORTED : Int := 1014
def ROUTE_NOT_FOUND : Int := 1015
def ALIAS_NOT_FOUND : Int := 1016
def SCRIPT_ERROR : Int := 2001
def EXECUTION_ERROR : Int := 2002
def REGISTRY_ERROR : Int := 3001
def INTERNAL_ERROR : Int := 9999

/-- ApiError::status_code: match arms of the source, in order; the HTTP
status is its numeric code. -/
def statusCode (code : Int) : Nat :=
  if code = AGENT_NOT_FOUND ∨ code = PROVIDER_NOT_FOUND ∨ code = PROFILE_NOT_FOUND ∨
     code = ROUTE_NOT_FOUND ∨ code = ALIAS_NOT_FOUND then 404
  else if code = PROFILE_EXISTS ∨ code = PROXY_ALREADY_RUNNING then 409
  else if code = AGENT_NOT_INSTALLED ∨ code = INCOMPATIBLE_PROVIDER ∨
          code = INVALID_ENDPOINT ∨ code = HOOKS_NOT_SUPPORTED ∨
          code = INVALID_HOOK_EVENT ∨ code = PROXY_NOT_ENABLED ∨
          code = PROXY_NOT_RUNNING ∨ code = PROXY_NOT_SUPPORTED then 400
  else if code = PROXY_START_FAILED ∨ code = SCRIPT_ERROR ∨
          code = EXECUTION_ERROR ∨ code = REGISTRY_ERROR then 500
  else if code = INTERNAL_ERROR then 500
  else 500

/-! ## C8 — registry sync skip window (ringletd/src/registry_client.rs) -/

/-- Registry lock file contents (timestamps as seconds). -/
structure RegistryLock where
  channel : String
  commit : Option String
  lastSync : Option Int
  pinnedRef : Option String
deriving DecidableEq, Repr

/-- The part of the fetched registry index that sync copies into the lock. -/
structure RegistryIndexHead where
  channel : String
  commit : Option String
deriving DecidableEq, Repr

/-- Outcome of a sync call: whether the remote was fetched, and the lock
contents afterwards. -/
structure SyncOutcome where
  didFetch : Bool
  finalLock : RegistryLock
deriving DecidableEq, Repr

/-- RegistryClient::needs_sync: sync if no recorded last sync, or the whole
number of hours since it (chrono num_hours, truncation toward zero) is at
least 24. -/
def needsSync (now : Int) (lock : RegistryLock) : Bool :=
  match lock.lastSync with
  | some last => 24 ≤ (now - last).tdiv 3600
  | none => true

/-- RegistryClient::sync.  offline short-circuits to a status read; without
force the 24-hour window is honoured; otherwise the index is fetched and
the lock rewritten with the index head, the current time and the preserved
pin. -/
def registrySync (lock : RegistryLock) (force offline : Bool) (now : Int)
    (index : RegistryIndexHead) : SyncOutcome :=
  if offline then ⟨false, lock⟩
  else if ¬force ∧ ¬needsSync now lock then ⟨false, lock⟩
  else ⟨true, { channel := index.channel, commit := index.commit,
                lastSync := some now, pinnedRef := lock.pinnedRef }⟩

/-! ## C1 — environment construction and agent spawn
(clownd/src/execution.rs, ExecutionAdapter::build_environment and
ExecutionAdapter::spawn_agent)

A Rust HashMap String String is modelled as an insertion list whose lookup
returns the last binding of a key: HashMap::insert is append, and two maps
are compared only through envGet. -/

/-- Insertion-ordered environment map. -/
abbrev EnvMap := List (String × String)

/-- Lookup of the last binding of a key (HashMap semantics under the
insert-is-append model). -/
def envGet : EnvMap → String → Option String
  | [], _ => none
  | kv :: rest, k =>
    match envGet rest k with
    | some v => some v
    | none => if kv.1 = k then some kv.2 else none

/-- ExecutionAdapter::build_environment: profile env without the reserved
internal keys, then the HOME override, then the provider auth binding when
the env key is non-empty, then the script env with the API key placeholder
substituted.  Later insertions win. -/
def buildEnvironment (profileEnv : EnvMap) (home envKey apiKey : String)
    (scriptEnv : EnvMap) : EnvMap :=
  (profileEnv.filter fun kv => !strStartsWith "_CLOWN_" kv.1)
    ++ [("HOME", home)]
    ++ (if envKey = "" then [] else [(envKey, apiKey)])
    ++ scriptEnv.map fun kv => (kv.1, strReplace kv.2 "${API_KEY}" apiKey)

/-- The env vars spawn_agent preserves from the daemon process. -/
def essentialKeys : List String := ["PATH", "TERM", "LANG", "LC_ALL", "USER", "SHELL"]

/-- ExecutionAdapter::spawn_agent environment: env_clear, then each
essential key that the daemon environment defines, then every binding of
the built environment. -/
def spawnEnvironment (daemonEnv : String → Option String) (built : EnvMap) : EnvMap :=
  (essentialKeys.filterMap fun k => (daemonEnv k).map fun v => (k, v)) ++ built

/-- ExecutionAdapter::spawn_agent argument list: profile args, then
script-generated args, then caller args. -/
def spawnArgs (profileArgs scriptArgs userArgs : List String) : List String :=
  profileArgs ++ scriptArgs ++ userArgs

/-! ## C2 — proxy port allocator (clownd/src/proxy_manager.rs,
PortAllocator::allocate)

allocated is a HashSet u16 (guarded inserts, so a plain list), assignments
a HashMap alias to port that only ever receives fresh aliases (cons with
first-wins lookup). -/

/-- First-wins association lookup for maps that only receive fresh keys. -/
def alookup {α : Type} : List (String × α) → String → Option α
  | [], _ => none
  | kv :: rest, k => if kv.1 = k then some kv.2 else alookup rest k

def BASE_PORT : Nat := 8080
def MAX_PORT : Nat := 8180

structure PortAllocator where
  basePort : Nat
  maxPort : Nat
  allocated : List Nat
  assignments : List (String × Nat)
deriving Repr

/-- PortAllocator::new. -/
def PortAllocator.mk0 (base max : Nat) : PortAllocator :=
  ⟨base, max, [], []⟩

/-- The source's for-loop over base..=max: return the first port not in
allocated, scanning count candidates from p upward. -/
def scanFrom (allocated : List Nat) : Nat → Nat → Option Nat
  | _, 0 => none
  | p, count + 1 => if p ∈ allocated then scanFrom allocated (p + 1) count else some p

/-- The state update both success paths of allocate perform: mark the port
allocated and record the assignment. -/
def grabbed (st : PortAllocator) (pAlias : String) (p : Nat) : PortAllocator :=
  { st with allocated := p :: st.allocated,
            assignments := (pAlias, p) :: st.assignments }

/-- PortAllocator::allocate: an existing assignment is returned as is; else
the preferred port is taken when in range and free; else the scan finds
the lowest free port; else the call fails (the source returns an anyhow
error, modelled as none — the loop itself cannot panic). -/
def PortAllocator.allocate (st : PortAllocator) (pAlias : String)
    (preferred : Option Nat) : Option (Nat × PortAllocator) :=
  match alookup st.assignments pAlias with
  | some port => some (port, st)
  | none =>
    match preferred with
    | some p =>
      if st.basePort ≤ p ∧ p ≤ st.maxPort ∧ p ∉ st.allocated then
        some (p, grabbed st pAlias p)
      else
        match scanFrom st.allocated st.basePort (st.maxPort + 1 - st.basePort) with
        | some q => some (q, grabbed st pAlias q)
        | none => none
    | none =>
      match scanFrom st.allocated st.basePort (st.maxPort + 1 - st.basePort) with
      | some q => some (q, grabbed st pAlias q)
      | none => none

/-- PortAllocator::release: drop the alias assignment and free its port. -/
def PortAllocator.release (st : PortAllocator) (pAlias : String) : PortAllocator :=
  match alookup st.assignments pAlias with
  | some port =>
    { st with assignments := st.assignments.filter fun kv => kv.1 ≠ pAlias,
              allocated := st.allocated.filter fun q => q ≠ port }
  | none => st

/-- Well-formedness carried by every allocator the daemon ever holds:
assignments point at allocated in-range ports, and no port is assigned to
two aliases. -/
def PortAllocator.WF (st : PortAllocator) : Prop :=
  (∀ a p, alookup st.assignments a = some p →
     st.basePort ≤ p ∧ p ≤ st.maxPort ∧ p ∈ st.allocated)
  ∧ (∀ a b p, alookup st.assignments a = some p →
       alookup st.assignments b = some p → a = b)

/-! ## C3 — profile create (clownd/src/profile_manager.rs,
ProfileManager::create; template expansion from clown-core/src/paths.rs)

Filesystem and keychain writes are recorded as an effect trace;
fileExists abstracts Path::exists at the moment create runs; daemonHome
abstracts home_dir(); encode abstracts serde_json::to_string_pretty
(which cannot fail on this data). -/

inductive FsEffect where
  | createDirAll (path : String)
  | storeCredential (key value : String)
  | writeFile (path content : String)
  | renameFile (src dst : String)
deriving DecidableEq, Repr

/-- clown-core expand_tilde: a leading tilde-slash resolves against the
daemon home directory (PathBuf::join modelled as slash concatenation). -/
def expandTilde (path : String) (daemonHome : Option String) : String :=
  if strStartsWith "~/" path then
    match daemonHome with
    | some h => h ++ "/" ++ String.mk (path.data.drop 2)
    | none => path
  else if path = "~" then
    match daemonHome with
    | some h => h
    | none => path
  else path

/-- clown-core expand_template: substitute the alias and agent-id template
variables, then expand a leading tilde. -/
def expandTemplate (template aliasName agentId : String) (daemonHome : Option String) : String :=
  expandTilde (strReplace (strReplace template "{alias}" aliasName) "{agent-id}" agentId)
    daemonHome

/-- ProfileCreateRequest (clown-core): the fields ProfileManager::create
reads. -/
structure ProfileCreateRequest where
  aliasName : String
  agentId : String
  providerId : String
  endpointId : Option String
  apiKey : String
  args : List String
  workingDir : Option String
  hooks : List String
  mcpServers : List String
deriving DecidableEq, Repr

/-- Profile metadata as create fills it (creation timestamp, last-used and
run counter are not read by any claim and are left out of the model). -/
structure ProfileMetadata where
  home : String
  enabledHooks : List String
  enabledMcpServers : List String
deriving DecidableEq, Repr

structure Profile where
  aliasName : String
  agentId : String
  providerId : String
  endpointId : String
  model : String
  env : EnvMap
  args : List String
  workingDir : Option String
  metadata : ProfileMetadata
deriving DecidableEq, Repr

inductive CreateError where
  | profileExists
deriving DecidableEq, Repr

/-- ProfileManager::create.  Checks for an existing profile file, expands
the agent source-home template, creates the home directory, stores the api
key in the keychain (with the internal reference env var) only when it is
non-empty, and writes the profile JSON.  The unused provider endpoint
parameter of the source is kept. -/
def createProfile (profilesDir : String) (fileExists : String → Bool)
    (daemonHome : Option String) (encode : Profile → String)
    (req : ProfileCreateRequest) (agentSourceHome : String)
    (_providerEndpoint : String) (resolvedModel : String) :
    Except CreateError Profile × List FsEffect :=
  let profileFile := profilesDir ++ "/" ++ req.aliasName ++ ".json"
  if fileExists profileFile then
    (.error .profileExists, [])
  else
    let home := expandTemplate agentSourceHome req.aliasName req.agentId daemonHome
    let keychainKey := "clown-" ++ req.aliasName
    let keyEffects : List FsEffect :=
      if req.apiKey = "" then [] else [.storeCredential keychainKey req.apiKey]
    let env : EnvMap :=
      if req.apiKey = "" then [] else [("_CLOWN_KEYCHAIN_KEY", keychainKey)]
    let profile : Profile :=
      { aliasName := req.aliasName
        agentId := req.agentId
        providerId := req.providerId
        endpointId := req.endpointId.getD "default"
        model := resolvedModel
        env := env
        args := req.args
        workingDir := req.workingDir
        metadata := { home := home, enabledHooks := req.hooks,
                      enabledMcpServers := req.mcpServers } }
    (.ok profile,
      [.createDirAll home] ++ keyEffects ++ [.writeFile profileFile (encode profile)])

/-- An atomic file write in the usual sense the spec appeals to: the
content reaches a distinct temporary path first and is renamed over the
target.  Stated from the spec wording to compare against the trace the
source actually produces. -/
def writesAtomically (effects : List FsEffect) (path content : String) : Prop :=
  ∃ tmp, tmp ≠ path ∧
    FsEffect.writeFile tmp content ∈ effects ∧ FsEffect.renameFile tmp path ∈ effects

/-! ## C4 — terminal session manager (clownd/src/terminal/manager.rs,
TerminalSessionManager with session state from terminal/session.rs)

sessions maps session id to session, profileIndex maps profile alias to
session id.  Both HashMaps are modelled as cons lists with first-wins
lookup; index inserts shadow, and removals drop every entry of a key, so
the lookup agrees with the HashMap at all times. -/

inductive SessionState where
  | starting
  | running
  | terminated (exitCode : Option Int)
deriving DecidableEq, Repr

/-- TerminalSession::is_terminated. -/
def SessionState.isTerminated : SessionState → Bool
  | .terminated _ => true
  | _ => false

structure Session where
  profileAlias : String
  state : SessionState
deriving DecidableEq, Repr

structure TMState where
  sessions : List (String × Session)
  profileIndex : List (String × String)
deriving DecidableEq, Repr

/-- TerminalSessionManager::new. -/
def TMState.empty : TMState := ⟨[], []⟩

/-- The insertion a successful create performs: the new session in Starting
state, with the index pointed at it. -/
def insertSession (st : TMState) (profileAlias newId : String) : TMState :=
  { sessions := (newId, ⟨profileAlias, .starting⟩) :: st.sessions,
    profileIndex := (profileAlias, newId) :: st.profileIndex }

/-- TerminalSessionManager::create_session with the freshly generated UUID
passed in: reject when the indexed session for the alias exists and is not
terminated, otherwise insert the new session in Starting state and point
the index at it. -/
def createSession (st : TMState) (profileAlias newId : String) : Option TMState :=
  match alookup st.profileIndex profileAlias with
  | some existingId =>
    match alookup st.sessions existingId with
    | some session =>
      if session.state.isTerminated then some (insertSession st profileAlias newId)
      else none
    | none => some (insertSession st profileAlias newId)
  | none => some (insertSession st profileAlias newId)

/-- Set a session's state to Terminated (the wait task on child exit, the
spawn-failure path, and terminate_session all do this). -/
def markTerminated (st : TMState) (id : String) (exitCode : Option Int) : TMState :=
  { st with sessions := st.sessions.map fun p =>
      if p.1 = id then (p.1, { p.2 with state := .terminated exitCode }) else p }

/-- The spawned PTY task's state write once the child process is up
(pty_bridge.rs, session.set_state(SessionState::Running)).  The write is
unconditional and runs after create_session has already returned, so it
can land on a session in any state, including one terminated meanwhile. -/
def markRunning (st : TMState) (id : String) : TMState :=
  { st with sessions := st.sessions.map fun p =>
      if p.1 = id then (p.1, { p.2 with state := .running }) else p }

/-- TerminalSessionManager::cleanup_terminated: drop terminated sessions;
drop an index entry exactly when some terminated session carries its alias
and the index still points at that session. -/
def cleanupTerminated (st : TMState) : TMState :=
  let removedKey : String → Bool := fun a =>
    st.sessions.any fun q =>
      q.2.state.isTerminated && q.2.profileAlias == a &&
        alookup st.profileIndex a == some q.1
  { sessions := st.sessions.filter fun p => !p.2.state.isTerminated,
    profileIndex := st.profileIndex.filter fun e => !removedKey e.1 }

/-- TerminalSessionManager::terminate_all: every non-terminated session is
terminated without an exit code. -/
def terminateAll (st : TMState) : TMState :=
  { st with sessions := st.sessions.map fun p =>
      (p.1, if p.2.state.isTerminated then p.2 else { p.2 with state := .terminated none }) }

/-- One manager transition.  Creation requires the generated UUID to be
unused (Uuid::new_v4 freshness); setRunning is the PTY task's unguarded
Running write, which the task performs at its own pace after create
returned; the other constructors cover the terminating tasks, the cleanup
pass and shutdown. -/
inductive TMStep : TMState → TMState → Prop where
  | create (st st' : TMState) (profileAlias newId : String)
      (hfresh : alookup st.sessions newId = none)
      (hok : createSession st profileAlias newId = some st') : TMStep st st'
  | setRunning (st : TMState) (id : String) : TMStep st (markRunning st id)
  | terminate (st : TMState) (id : String) (exitCode : Option Int) :
      TMStep st (markTerminated st id exitCode)
  | cleanup (st : TMState) : TMStep st (cleanupTerminated st)
  | terminateAllStep (st : TMState) : TMStep st (terminateAll st)

/-- States the daemon can reach from a fresh manager. -/
def TMReachable (st : TMState) : Prop :=
  Relation.ReflTransGen TMStep TMState.empty st

/-- The manager transitions with the startup race excluded: the PTY task's
Running write fires only while its session is still non-terminated, i.e.
no session terminated during Starting is resurrected by the late write. -/
inductive TMStepOrderly : TMState → TMState → Prop where
  | create (st st' : TMState) (profileAlias newId : String)
      (hfresh : alookup st.sessions newId = none)
      (hok : createSession st profileAlias newId = some st') : TMStepOrderly st st'
  | setRunning (st : TMState) (id : String) (s : Session)
      (hs : alookup st.sessions id = some s)
      (hlive : s.state.isTerminated = false) : TMStepOrderly st (markRunning st id)
  | terminate (st : TMState) (id : String) (exitCode : Option Int) :
      TMStepOrderly st (markTerminated st id exitCode)
  | cleanup (st : TMState) : TMStepOrderly st (cleanupTerminated st)
  | terminateAllStep (st : TMState) : TMStepOrderly st (terminateAll st)

/-- States reachable from a fresh manager without the startup race. -/
def TMOrderlyReachable (st : TMState) : Prop :=
  Relation.ReflTransGen TMStepOrderly TMState.empty st

/-- A live (non-terminated) tracked session. -/
def liveAt (st : TMState) (id : String) (a : String) : Prop :=
  ∃ s, alookup st.sessions id = some s ∧ s.state.isTerminated = false ∧ s.profileAlias = a

/-- The manager invariant: session ids are unique, and every live session
is the one its profile alias is indexed at. -/
def TMInv (st : TMState) : Prop :=
  (st.sessions.map Prod.fst).Nodup
  ∧ ∀ id s, alookup st.sessions id = some s → s.state.isTerminated = false →
      alookup st.profileIndex s.profileAlias = some id

/-! ## C5, C6, C10 — usage watcher (clownd/src/usage_watcher.rs with
UsageEntry from clownd/src/agent_usage/mod.rs)

A JSONL line is modelled as the outcome of serde deserialisation: none for
an unreadable, empty or non-matching line, or the record of optional
fields serde produced.  The process-wide seen set of dedup keys is a
List String with guarded inserts.  Timestamps stay raw strings (only the
Codex id synthesis reads them); float costs are dropped. -/

inductive AgentType where
  | claude
  | codex
  | opencode
deriving DecidableEq, Repr

/-- Display for AgentType, as used by UsageEntry::dedup_key. -/
def AgentType.display : AgentType → String
  | .claude => "claude"
  | .codex => "codex"
  | .opencode => "opencode"

structure TokenUsage where
  inputTokens : Nat
  outputTokens : Nat
  cacheCreationInputTokens : Nat
  cacheReadInputTokens : Nat
deriving DecidableEq, Repr

structure UsageEntry where
  agent : AgentType
  messageId : String
  requestId : Option String
  model : String
  tokens : TokenUsage
  projectPath : String
deriving DecidableEq, Repr

/-- UsageEntry::dedup_key. -/
def UsageEntry.dedupKey (e : UsageEntry) : String :=
  match e.requestId with
  | some reqId => e.agent.display ++ ":" ++ e.messageId ++ ":" ++ reqId
  | none => e.agent.display ++ ":" ++ e.messageId

/-- serde view of one Claude JSONL line (usage_watcher.rs ClaudeEntry). -/
structure ClaudeUsageRaw where
  inputTokens : Option Nat
  outputTokens : Option Nat
  cacheCreationInputTokens : Option Nat
  cacheReadInputTokens : Option Nat
deriving DecidableEq, Repr

structure ClaudeMessageRaw where
  usage : Option ClaudeUsageRaw
deriving DecidableEq, Repr

structure ClaudeRaw where
  timestamp : Option String
  message : Option ClaudeMessageRaw
  model : Option String
  messageId : Option String
  requestId : Option String
deriving DecidableEq, Repr

/-- parse_claude_line: requires a message with a usage object and a message
id; every token counter defaults to zero. -/
def parseClaudeLine (line : Option ClaudeRaw) (projectPath : String) : Option UsageEntry := do
  let e ← line
  let msg ← e.message
  let usage ← msg.usage
  let messageId ← e.messageId
  some { agent := .claude
         messageId := messageId
         requestId := e.requestId
         model := e.model.getD "unknown"
         tokens := { inputTokens := usage.inputTokens.getD 0
                     outputTokens := usage.outputTokens.getD 0
                     cacheCreationInputTokens := usage.cacheCreationInputTokens.getD 0
                     cacheReadInputTokens := usage.cacheReadInputTokens.getD 0 }
         projectPath := projectPath }

/-- serde view of one Codex JSONL line (usage_watcher.rs CodexEntry). -/
structure CodexUsageRaw where
  inputTokens : Option Nat
  outputTokens : Option Nat
  cachedInputTokens : Option Nat
deriving DecidableEq, Repr

structure CodexMetadataRaw where
  model : Option String
deriving DecidableEq, Repr

structure CodexInfoRaw where
  usage : Option CodexUsageRaw
  metadata : Option CodexMetadataRaw
deriving DecidableEq, Repr

structure CodexPayloadRaw where
  modelName : Option String
  info : Option CodexInfoRaw
deriving DecidableEq, Repr

structure CodexRaw where
  entryType : Option String
  timestamp : Option String
  payload : Option CodexPayloadRaw
deriving DecidableEq, Repr

/-- The message id parse_codex_line synthesises from the timestamp string
and the current size of the seen set. -/
def codexMsgId (timestampStr : String) (counter : Nat) : String :=
  "codex_" ++ timestampStr ++ "_" ++ String.mk (natDecimal counter)

/-- parse_codex_line: only token_count entries with a payload, info and
usage; the message id is synthesised from the timestamp string and the
seen-set size. -/
def parseCodexLine (line : Option CodexRaw) (sessionPath : String)
    (seen : List String) : Option UsageEntry := do
  let e ← line
  if e.entryType ≠ some "token_count" then none else
  let payload ← e.payload
  let info ← payload.info
  let usage ← info.usage
  let timestampStr := e.timestamp.getD "unknown"
  let messageId := codexMsgId timestampStr seen.length
  let model := (payload.modelName.or (info.metadata.bind fun m => m.model)).getD "gpt-4o"
  some { agent := .codex
         messageId := messageId
         requestId := none
         model := model
         tokens := { inputTokens := usage.inputTokens.getD 0
                     outputTokens := usage.outputTokens.getD 0
                     cacheCreationInputTokens := 0
                     cacheReadInputTokens := usage.cachedInputTokens.getD 0 }
         projectPath := sessionPath }

/-- The per-line body of read_new_jsonl_entries: parse, drop when the dedup
key is already seen, else record the key and keep the entry.  The parser
receives the seen set as parse_codex_line reads its size. -/
def ingestLines {α : Type} (parse : α → List String → Option UsageEntry) :
    List α → List String → List String × List UsageEntry
  | [], seen => (seen, [])
  | line :: rest, seen =>
    match parse line seen with
    | none => ingestLines parse rest seen
    | some e =>
      if e.dedupKey ∈ seen then
        ingestLines parse rest seen
      else
        let next := ingestLines parse rest (e.dedupKey :: seen)
        (next.1, e :: next.2)

/-- serde view of one OpenCode JSON file (usage_watcher.rs OpenCodeEntry). -/
structure OpenCodeTokensRaw where
  inputTokens : Option Nat
  outputTokens : Option Nat
  cacheReadTokens : Option Nat
  cacheWriteTokens : Option Nat
deriving DecidableEq, Repr

structure OpenCodeRaw where
  id : Option String
  sessionId : Option String
  model : Option String
  createdAt : Option String
  tokens : Option OpenCodeTokensRaw
deriving DecidableEq, Repr

/-- parse_new_json_entry: whole-file JSON path.  Note the source inserts
the dedup key before checking for a tokens object, so a tokensless file
still marks its id as seen. -/
def parseNewJsonEntry (file : Option OpenCodeRaw) (seen : List String) :
    List String × Option UsageEntry :=
  match file with
  | none => (seen, none)
  | some e =>
    match e.id with
    | none => (seen, none)
    | some id =>
      let dedupKey := "opencode:" ++ id
      if dedupKey ∈ seen then (seen, none)
      else
        let seen1 := dedupKey :: seen
        match e.tokens with
        | none => (seen1, none)
        | some t =>
          (seen1, some
            { agent := .opencode
              messageId := id
              requestId := none
              model := e.model.getD "unknown"
              tokens := { inputTokens := t.inputTokens.getD 0
                          outputTokens := t.outputTokens.getD 0
                          cacheCreationInputTokens := t.cacheWriteTokens.getD 0
                          cacheReadInputTokens := t.cacheReadTokens.getD 0 }
              projectPath := e.sessionId.getD "unknown" })

/-- One watcher ingestion unit: the new lines of a Claude or Codex JSONL
file, or a whole OpenCode JSON file. -/
inductive WatchInput where
  | claudeFile (lines : List (Option ClaudeRaw)) (projectPath : String)
  | codexFile (lines : List (Option CodexRaw)) (sessionPath : String)
  | opencodeFile (file : Option OpenCodeRaw)

/-- Dispatch of run_watcher on one filesystem event; the returned entries
are exactly those broadcast_entries turns into UsageUpdated events. -/
def watchStep (input : WatchInput) (seen : List String) :
    List String × List UsageEntry :=
  match input with
  | .claudeFile lines projectPath =>
    ingestLines (fun l _ => parseClaudeLine l projectPath) lines seen
  | .codexFile lines sessionPath =>
    ingestLines (fun l s => parseCodexLine l sessionPath s) lines seen
  | .opencodeFile file =>
    match parseNewJsonEntry file seen with
    | (seen1, some e) => (seen1, [e])
    | (seen1, none) => (seen1, [])

/-- The watcher loop over its lifetime: every broadcast UsageUpdated event
corresponds to one entry of the concatenated output. -/
def watchRun : List WatchInput → List String → List String × List UsageEntry
  | [], seen => (seen, [])
  | input :: rest, seen =>
    let step := watchStep input seen
    let next := watchRun rest step.1
    (next.1, step.2 ++ next.2)

/-- The size invariant every watcher seen set satisfies: a Codex-synthesised
key in the set was made with a counter below the current size (the counter
was the size when the key entered, and the set only grows). -/
def codexCounterInv (seen : List String) : Prop :=
  ∀ ts c, ("codex:" ++ codexMsgId ts c) ∈ seen → c < seen.length

/-! ## Theorems -/

/-- C7: RoutingCondition::parse maps the four sample inputs of the claim to
the stated conditions, and returns none for every input whose trimmed,
lowercased form is neither of the words always or thinking nor starts with
tokens or tools (the recognised comparison forms all do). -/
theorem c7_routing_parse :
    RoutingCondition.parse "tokens > 100000" = some (.tokenCount (some 100000) none)
  ∧ RoutingCondition.parse "tools >= 5" = some (.hasTools (some 5))
  ∧ RoutingCondition.parse "thinking" = some .thinkingMode
  ∧ RoutingCondition.parse "always" = some .always
  ∧ ∀ s : String,
      ¬(lowerL (trimL s.data) = "always".data ∨
        lowerL (trimL s.data) = "thinking".data ∨
        "tokens".data.isPrefixOf (lowerL (trimL s.data)) = true ∨
        "tools".data.isPrefixOf (lowerL (trimL s.data)) = true) →
      RoutingCondition.parse s = none := by
  refine ⟨rfl, rfl, rfl, rfl, ?_⟩
  intro s h
  push_neg at h
  obtain ⟨h1, h2, h3, h4⟩ := h
  simp only [RoutingCondition.parse]
  rw [if_neg h1, if_neg h2, if_neg (by simpa using h3), if_neg (by simpa using h4)]

/-- C7 witness: a garbage string parses to none, by the final clause of the
theorem at a concrete input. -/
theorem c7_routing_parse_witness : RoutingCondition.parse "route me" = none :=
  c7_routing_parse.2.2.2.2 "route me" (by decide)

/-- C9 counterexample: the claim asserts every code in 1001 to 1005 maps to
404, but the source maps 1004 (PROFILE_EXISTS) to 409. -/
theorem c9_counterexample :
    ¬ (∀ code : Int, 1001 ≤ code → code ≤ 1005 → statusCode code = 404) := by
  intro h
  have h4 := h 1004 (by norm_num) (by norm_num)
  exact absurd h4 (by decide)

/-- C9 amended: the full mapping of ApiError::status_code over the wire
error codes: 1001 to 1003 and 1015, 1016 map to 404; 1004 and 1012 to 409;
1005 to 1011 and 1014 to 400; 1013, 2001, 2002, 3001 and 9999 to 500. -/
theorem c9_status_mapping :
    statusCode 1001 = 404 ∧ statusCode 1002 = 404 ∧ statusCode 1003 = 404 ∧
    statusCode 1015 = 404 ∧ statusCode 1016 = 404 ∧
    statusCode 1004 = 409 ∧ statusCode 1012 = 409 ∧
    statusCode 1005 = 400 ∧ statusCode 1006 = 400 ∧ statusCode 1007 = 400 ∧
    statusCode 1008 = 400 ∧ statusCode 1009 = 400 ∧ statusCode 1010 = 400 ∧
    statusCode 1011 = 400 ∧ statusCode 1014 = 400 ∧
    statusCode 1013 = 500 ∧ statusCode 2001 = 500 ∧ statusCode 2002 = 500 ∧
    statusCode 3001 = 500 ∧ statusCode 9999 = 500 := by
  decide

/-- C8: a sync without force and not offline, when the lock records a last
sync less than twenty-four hours old, fetches nothing and leaves the lock
(in particular last_sync) unchanged. -/
theorem c8_sync_within_window_noop (lock : RegistryLock) (now t : Int)
    (index : RegistryIndexHead) (hls : lock.lastSync = some t)
    (h0 : 0 ≤ now - t) (h24 : now - t < 86400) :
    registrySync lock false false now index = ⟨false, lock⟩ := by
  obtain ⟨m, hm⟩ : ∃ m : Nat, now - t = (m : Int) :=
    ⟨(now - t).toNat, (Int.toNat_of_nonneg h0).symm⟩
  have hmlt : m < 86400 := by
    have := h24
    omega
  have htdiv : (now - t).tdiv 3600 = ((m / 3600 : Nat) : Int) := by
    rw [hm]; rfl
  have hlt : (now - t).tdiv 3600 < 24 := by
    rw [htdiv]
    have : m / 3600 < 24 := (Nat.div_lt_iff_lt_mul (by norm_num)).mpr (by omega)
    exact_mod_cast this
  have hns : needsSync now lock = false := by
    simp only [needsSync, hls]
    simpa using by omega
  simp [registrySync, hns]

/-- C8 witness: the theorem applied at a concrete lock and clock. -/
theorem c8_sync_within_window_noop_witness :
    registrySync ⟨"stable", some "abc", some 1000, none⟩ false false 2000
      ⟨"stable", some "def"⟩ = ⟨false, ⟨"stable", some "abc", some 1000, none⟩⟩ :=
  c8_sync_within_window_noop ⟨"stable", some "abc", some 1000, none⟩ 2000 1000
    ⟨"stable", some "def"⟩ rfl (by norm_num) (by norm_num)

/-- Lookup in the empty environment. -/
theorem envGet_nil (k : String) : envGet [] k = none := rfl

/-- Lookup in a one-binding environment. -/
theorem envGet_singleton (k0 v0 k : String) :
    envGet [(k0, v0)] k = if k0 = k then some v0 else none := rfl

/-- Lookup distributes over append: the later block wins. -/
theorem envGet_append (a b : EnvMap) (k : String) :
    envGet (a ++ b) k =
      match envGet b k with
      | some v => some v
      | none => envGet a k := by
  induction a with
  | nil =>
    simp only [List.nil_append]
    cases envGet b k <;> rfl
  | cons kv a ih =>
    show envGet (kv :: (a ++ b)) k = _
    simp only [envGet, ih]
    cases envGet b k <;> cases envGet a k <;> rfl

/-- Lookup after a value-only map. -/
theorem envGet_map_value (m : EnvMap) (f : String → String) (k : String) :
    envGet (m.map fun kv => (kv.1, f kv.2)) k = (envGet m k).map f := by
  induction m with
  | nil => rfl
  | cons kv m ih =>
    simp only [List.map_cons, envGet, ih]
    cases envGet m k with
    | some v => rfl
    | none =>
      by_cases h : kv.1 = k <;> simp [h]

/-- Lookup in the essential-keys block built by spawn_agent. -/
theorem envGet_filterMap_keys (f : String → Option String) (l : List String)
    (hnd : l.Nodup) (k : String) :
    envGet (l.filterMap fun k' => (f k').map fun v => (k', v)) k =
      if k ∈ l then f k else none := by
  induction l with
  | nil => simp [envGet]
  | cons a l ih =>
    have hnd' := hnd.of_cons
    have hna : a ∉ l := (List.nodup_cons.mp hnd).1
    rw [List.filterMap_cons]
    cases hfa : f a with
    | none =>
      simp only [Option.map_none']
      rw [ih hnd']
      by_cases hk : k = a
      · subst hk
        simp [hna, hfa]
      · simp [hk]
    | some v =>
      simp only [Option.map_some', envGet, ih hnd']
      by_cases hk : k = a
      · subst hk
        simp [hna, hfa]
      · by_cases hkl : k ∈ l
        · cases hfk : f k <;> simp [hkl, hk, Ne.symm hk, hfk]
        · simp [hkl, hk, Ne.symm hk]

/-- C1: the agent child environment.  First conjunct: the spawned process
sees exactly the built environment, falling back on the six restored
essential keys of the daemon environment, and nothing else (the inherited
environment is cleared).  Second conjunct: the built environment is, with
later insertions winning, the script env with the API key placeholder
substituted, over the provider auth binding when the env key is non-empty,
over HOME bound to the profile home, over the profile env without internal
keys.  Third conjunct: the argument list is profile args, then script
args, then caller-supplied args. -/
theorem c1_spawn_environment (daemonEnv : String → Option String)
    (profileEnv : EnvMap) (home envKey apiKey : String) (scriptEnv : EnvMap)
    (k : String) (profileArgs scriptArgs userArgs : List String) :
    (envGet (spawnEnvironment daemonEnv
        (buildEnvironment profileEnv home envKey apiKey scriptEnv)) k =
      match envGet (buildEnvironment profileEnv home envKey apiKey scriptEnv) k with
      | some v => some v
      | none => if k ∈ essentialKeys then daemonEnv k else none)
  ∧ (envGet (buildEnvironment profileEnv home envKey apiKey scriptEnv) k =
      match envGet scriptEnv k with
      | some v => some (strReplace v "${API_KEY}" apiKey)
      | none =>
        if envKey ≠ "" ∧ k = envKey then some apiKey
        else if k = "HOME" then some home
        else envGet (profileEnv.filter fun kv => !strStartsWith "_CLOWN_" kv.1) k)
  ∧ spawnArgs profileArgs scriptArgs userArgs = profileArgs ++ scriptArgs ++ userArgs := by
  have hbuilt : envGet (buildEnvironment profileEnv home envKey apiKey scriptEnv) k =
      match envGet scriptEnv k with
      | some v => some (strReplace v "${API_KEY}" apiKey)
      | none =>
        if envKey ≠ "" ∧ k = envKey then some apiKey
        else if k = "HOME" then some home
        else envGet (profileEnv.filter fun kv => !strStartsWith "_CLOWN_" kv.1) k := by
    unfold buildEnvironment
    rw [envGet_append, envGet_append, envGet_append,
      envGet_map_value scriptEnv (fun v => strReplace v "${API_KEY}" apiKey) k]
    cases hs : envGet scriptEnv k with
    | some v => rfl
    | none =>
      simp only [Option.map_none']
      rw [envGet_singleton "HOME" home k]
      by_cases he : envKey = ""
      · rw [if_pos he, envGet_nil]
        simp only [ne_eq, he, not_true_eq_false, false_and, if_false]
        by_cases hh : k = "HOME"
        · simp [hh]
        · simp [hh, show "HOME" ≠ k from fun h => hh h.symm]
      · rw [if_neg he, envGet_singleton envKey apiKey k]
        by_cases hk : k = envKey
        · simp [hk, he]
        · have hk' : envKey ≠ k := fun h => hk h.symm
          rw [if_neg hk']
          simp only [ne_eq, he, not_false_eq_true, true_and, if_neg hk]
          by_cases hh : k = "HOME"
          · simp [hh]
          · simp [hh, show "HOME" ≠ k from fun h => hh h.symm]
  refine ⟨?_, hbuilt, rfl⟩
  unfold spawnEnvironment
  rw [envGet_append, envGet_filterMap_keys daemonEnv essentialKeys (by decide)]

/-- A successful scan returns a free port, at or above the start, within
the scanned window, with everything below it allocated. -/
theorem scanFrom_some (alloc : List Nat) :
    ∀ count p q, scanFrom alloc p count = some q →
      p ≤ q ∧ q < p + count ∧ q ∉ alloc ∧ ∀ r, p ≤ r → r < q → r ∈ alloc := by
  intro count
  induction count with
  | zero =>
    intro p q h
    exact absurd h (by simp [scanFrom])
  | succ n ih =>
    intro p q h
    simp only [scanFrom] at h
    by_cases hp : p ∈ alloc
    · rw [if_pos hp] at h
      obtain ⟨h1, h2, h3, h4⟩ := ih (p + 1) q h
      refine ⟨by omega, by omega, h3, ?_⟩
      intro r hr1 hr2
      rcases Nat.eq_or_lt_of_le hr1 with he | hl
      · rw [← he]; exact hp
      · exact h4 r (by omega) hr2
    · rw [if_neg hp] at h
      injection h with h
      subst h
      exact ⟨Nat.le_refl p, by omega, hp, fun r hr1 hr2 => absurd hr1 (by omega)⟩

/-- A scan over a fully allocated window fails. -/
theorem scanFrom_none_of_full (alloc : List Nat) :
    ∀ count p, (∀ r, p ≤ r → r < p + count → r ∈ alloc) →
      scanFrom alloc p count = none := by
  intro count
  induction count with
  | zero => intro p _; rfl
  | succ n ih =>
    intro p h
    have hp : p ∈ alloc := h p (Nat.le_refl p) (by omega)
    simp only [scanFrom, if_pos hp]
    exact ih (p + 1) fun r hr1 hr2 => h r (by omega) (by omega)

/-- Allocating a fresh in-range free port preserves allocator
well-formedness. -/
theorem allocate_grab_wf (st : PortAllocator) (pAlias : String) (q : Nat)
    (hwf : st.WF) (_hnew : alookup st.assignments pAlias = none)
    (hr1 : st.basePort ≤ q) (hr2 : q ≤ st.maxPort) (hfree : q ∉ st.allocated) :
    (grabbed st pAlias q).WF := by
  constructor
  · intro a p hap
    simp only [grabbed, alookup] at hap
    by_cases ha : pAlias = a
    · rw [if_pos ha] at hap
      injection hap with hap
      subst hap
      exact ⟨hr1, hr2, by simp [grabbed]⟩
    · rw [if_neg ha] at hap
      obtain ⟨w1, w2, w3⟩ := hwf.1 a p hap
      exact ⟨w1, w2, by simp [grabbed, w3]⟩
  · intro a b p hap hbp
    simp only [grabbed, alookup] at hap hbp
    by_cases ha : pAlias = a <;> by_cases hb : pAlias = b
    · rw [← ha, ← hb]
    · rw [if_pos ha] at hap
      rw [if_neg hb] at hbp
      injection hap with hap
      subst hap
      exact absurd (hwf.1 b q hbp).2.2 hfree
    · rw [if_neg ha] at hap
      rw [if_pos hb] at hbp
      injection hbp with hbp
      subst hbp
      exact absurd (hwf.1 a q hap).2.2 hfree
    · rw [if_neg ha] at hap
      rw [if_neg hb] at hbp
      exact hwf.2 a b p hap hbp

/-- C2: PortAllocator::allocate.  An existing assignment is returned
unchanged; a free in-range preferred port is honoured; otherwise the
result is the lowest free port of the range; every returned port is in
range and not assigned to another alias at call time; a repeated call for
the same alias (with any preference, no release between) returns the same
port; well-formedness is preserved; and a saturated range yields a
failure value, not a panic. -/
theorem c2_port_allocator (st : PortAllocator) (pAlias : String)
    (preferred : Option Nat) (hwf : st.WF) :
    (∀ port, alookup st.assignments pAlias = some port →
        st.allocate pAlias preferred = some (port, st))
  ∧ (∀ p, alookup st.assignments pAlias = none → preferred = some p →
        st.basePort ≤ p → p ≤ st.maxPort → p ∉ st.allocated →
        st.allocate pAlias preferred = some (p, grabbed st pAlias p))
  ∧ (∀ q st', alookup st.assignments pAlias = none →
        (∀ p, preferred = some p →
          ¬(st.basePort ≤ p ∧ p ≤ st.maxPort ∧ p ∉ st.allocated)) →
        st.allocate pAlias preferred = some (q, st') →
        q ∉ st.allocated ∧ ∀ r, st.basePort ≤ r → r < q → r ∈ st.allocated)
  ∧ (∀ q st', st.allocate pAlias preferred = some (q, st') →
        st.basePort ≤ q ∧ q ≤ st.maxPort
        ∧ (∀ b, alookup st.assignments b = some q → b = pAlias)
        ∧ (∀ pref2, st'.allocate pAlias pref2 = some (q, st'))
        ∧ st'.WF)
  ∧ ((∀ r, st.basePort ≤ r → r ≤ st.maxPort → r ∈ st.allocated) →
        alookup st.assignments pAlias = none →
        st.allocate pAlias preferred = none) := by
  refine ⟨?_, ?_, ?_, ?_, ?_⟩
  · intro port hport
    simp [PortAllocator.allocate, hport]
  · intro p hnone hpref hr1 hr2 hfree
    subst hpref
    simp only [PortAllocator.allocate, hnone]
    rw [if_pos ⟨hr1, hr2, hfree⟩]
  · intro q st' hnone hbad halloc
    cases preferred with
    | some p =>
      have hcond := hbad p rfl
      simp only [PortAllocator.allocate, hnone] at halloc
      rw [if_neg hcond] at halloc
      cases hscan : scanFrom st.allocated st.basePort (st.maxPort + 1 - st.basePort) with
      | some w =>
        rw [hscan] at halloc
        simp only [Option.some.injEq, Prod.mk.injEq] at halloc
        obtain ⟨h1, h2⟩ := halloc
        obtain ⟨s1, s2, s3, s4⟩ := scanFrom_some st.allocated _ _ _ hscan
        subst h1
        exact ⟨s3, fun r hra hrb => s4 r hra hrb⟩
      | none =>
        rw [hscan] at halloc
        simp at halloc
    | none =>
      simp only [PortAllocator.allocate, hnone] at halloc
      cases hscan : scanFrom st.allocated st.basePort (st.maxPort + 1 - st.basePort) with
      | some w =>
        rw [hscan] at halloc
        simp only [Option.some.injEq, Prod.mk.injEq] at halloc
        obtain ⟨h1, h2⟩ := halloc
        obtain ⟨s1, s2, s3, s4⟩ := scanFrom_some st.allocated _ _ _ hscan
        subst h1
        exact ⟨s3, fun r hra hrb => s4 r hra hrb⟩
      | none =>
        rw [hscan] at halloc
        simp at halloc
  · intro q st' halloc
    have main : ∀ w, st.basePort ≤ w → w ≤ st.maxPort → w ∉ st.allocated →
        alookup st.assignments pAlias = none →
        (some (w, grabbed st pAlias w) : Option (Nat × PortAllocator)) = some (q, st') →
        st.basePort ≤ q ∧ q ≤ st.maxPort
        ∧ (∀ b, alookup st.assignments b = some q → b = pAlias)
        ∧ (∀ pref2, st'.allocate pAlias pref2 = some (q, st'))
        ∧ st'.WF := by
      intro w hwr1 hwr2 hwfree hnone he
      simp only [Option.some.injEq, Prod.mk.injEq] at he
      obtain ⟨h1, h2⟩ := he
      subst h1
      subst h2
      refine ⟨hwr1, hwr2, ?_, ?_, ?_⟩
      · intro b hb
        exact absurd (hwf.1 b w hb).2.2 hwfree
      · intro pref2
        simp [PortAllocator.allocate, grabbed, alookup]
      · exact allocate_grab_wf st pAlias w hwf hnone hwr1 hwr2 hwfree
    cases hasg : alookup st.assignments pAlias with
    | some port =>
      simp only [PortAllocator.allocate, hasg, Option.some.injEq, Prod.mk.injEq] at halloc
      obtain ⟨h1, h2⟩ := halloc
      subst h1
      subst h2
      obtain ⟨w1, w2, _⟩ := hwf.1 pAlias port hasg
      refine ⟨w1, w2, fun b hb => hwf.2 b pAlias port hb hasg, ?_, hwf⟩
      intro pref2
      simp [PortAllocator.allocate, hasg]
    | none =>
      cases preferred with
      | some p =>
        by_cases hcond : st.basePort ≤ p ∧ p ≤ st.maxPort ∧ p ∉ st.allocated
        · simp only [PortAllocator.allocate, hasg] at halloc
          rw [if_pos hcond] at halloc
          exact main p hcond.1 hcond.2.1 hcond.2.2 hasg halloc
        · simp only [PortAllocator.allocate, hasg] at halloc
          rw [if_neg hcond] at halloc
          cases hscan : scanFrom st.allocated st.basePort (st.maxPort + 1 - st.basePort) with
          | some w =>
            rw [hscan] at halloc
            obtain ⟨s1, s2, s3, _⟩ := scanFrom_some st.allocated _ _ _ hscan
            exact main w s1 (by omega) s3 hasg halloc
          | none =>
            rw [hscan] at halloc
            simp at halloc
      | none =>
        simp only [PortAllocator.allocate, hasg] at halloc
        cases hscan : scanFrom st.allocated st.basePort (st.maxPort + 1 - st.basePort) with
        | some w =>
          rw [hscan] at halloc
          obtain ⟨s1, s2, s3, _⟩ := scanFrom_some st.allocated _ _ _ hscan
          exact main w s1 (by omega) s3 hasg halloc
        | none =>
          rw [hscan] at halloc
          simp at halloc
  · intro hfull hnone
    have hscan : scanFrom st.allocated st.basePort (st.maxPort + 1 - st.basePort) = none :=
      scanFrom_none_of_full st.allocated _ _ fun r h1 h2 => hfull r h1 (by omega)
    cases preferred with
    | some p =>
      have hcond : ¬(st.basePort ≤ p ∧ p ≤ st.maxPort ∧ p ∉ st.allocated) := by
        intro hc
        exact hc.2.2 (hfull p hc.1 hc.2.1)
      simp only [PortAllocator.allocate, hnone]
      rw [if_neg hcond, hscan]
    | none =>
      simp only [PortAllocator.allocate, hnone]
      rw [hscan]

/-- C2 witness: on a fresh allocator a free in-range preferred port is
returned and recorded, by the theorem's preferred-port clause at concrete
inputs. -/
theorem c2_port_allocator_witness :
    (PortAllocator.mk0 8080 8180).allocate "work" (some 8100) =
      some (8100, grabbed (PortAllocator.mk0 8080 8180) "work" 8100) :=
  (c2_port_allocator (PortAllocator.mk0 8080 8180) "work" (some 8100)
      ⟨fun a p hp => by simp [alookup, PortAllocator.mk0] at hp,
       fun a b p hp hq => by simp [alookup, PortAllocator.mk0] at hp⟩).2.1
    8100 rfl rfl (by decide) (by decide) (by decide)

/-- C3 counterexample: a concrete successful create writes the profile JSON
with one direct write to the final path — the trace holds no rename, so
the write is not atomic in the temp-file-and-rename sense the claim
asserts. -/
theorem c3_counterexample :
    (createProfile "profiles" (fun _ => false) (some "/home/u") (fun _ => "JSON")
        ⟨"work", "claude", "anthropic", none, "sk-xyz", [], none, [], []⟩
        "~/.claude-profiles/{alias}" "https://api.example" "claude-sonnet").2 =
      [.createDirAll "/home/u/.claude-profiles/work",
       .storeCredential "clown-work" "sk-xyz",
       .writeFile "profiles/work.json" "JSON"]
  ∧ ¬ writesAtomically
      (createProfile "profiles" (fun _ => false) (some "/home/u") (fun _ => "JSON")
        ⟨"work", "claude", "anthropic", none, "sk-xyz", [], none, [], []⟩
        "~/.claude-profiles/{alias}" "https://api.example" "claude-sonnet").2
      "profiles/work.json" "JSON" := by
  have htrace :
      (createProfile "profiles" (fun _ => false) (some "/home/u") (fun _ => "JSON")
        ⟨"work", "claude", "anthropic", none, "sk-xyz", [], none, [], []⟩
        "~/.claude-profiles/{alias}" "https://api.example" "claude-sonnet").2 =
      [.createDirAll "/home/u/.claude-profiles/work",
       .storeCredential "clown-work" "sk-xyz",
       .writeFile "profiles/work.json" "JSON"] := by decide
  refine ⟨htrace, ?_⟩
  intro hat
  obtain ⟨tmp, hne, hw, hr⟩ := hat
  rw [htrace] at hr
  simp at hr

/-- C3 (amended): create fails with ProfileExists and performs no effect
when the profile file exists; otherwise it succeeds with the home expanded
from the agent source-home template, creates that directory, stores the
api key under the keychain handle clown-alias exactly when the key is
non-empty, and performs one direct write of the profile JSON (not an
atomic temp-file-and-rename). -/
theorem c3_create (profilesDir : String) (fileExists : String → Bool)
    (daemonHome : Option String) (encode : Profile → String)
    (req : ProfileCreateRequest) (agentSourceHome provEp resolvedModel : String) :
    (fileExists (profilesDir ++ "/" ++ req.aliasName ++ ".json") = true →
      createProfile profilesDir fileExists daemonHome encode req agentSourceHome
          provEp resolvedModel = (.error .profileExists, []))
  ∧ (fileExists (profilesDir ++ "/" ++ req.aliasName ++ ".json") = false →
      ∃ prof,
        (createProfile profilesDir fileExists daemonHome encode req agentSourceHome
            provEp resolvedModel).1 = .ok prof
      ∧ prof.metadata.home = expandTemplate agentSourceHome req.aliasName req.agentId daemonHome
      ∧ (createProfile profilesDir fileExists daemonHome encode req agentSourceHome
            provEp resolvedModel).2 =
          [FsEffect.createDirAll prof.metadata.home]
          ++ (if req.apiKey = "" then []
              else [FsEffect.storeCredential ("clown-" ++ req.aliasName) req.apiKey])
          ++ [FsEffect.writeFile (profilesDir ++ "/" ++ req.aliasName ++ ".json")
                (encode prof)]
      ∧ ∀ kk vv,
          FsEffect.storeCredential kk vv ∈
            (createProfile profilesDir fileExists daemonHome encode req agentSourceHome
              provEp resolvedModel).2 ↔
          req.apiKey ≠ "" ∧ kk = "clown-" ++ req.aliasName ∧ vv = req.apiKey) := by
  constructor
  · intro hex
    simp [createProfile, hex]
  · intro hnx
    refine ⟨⟨req.aliasName, req.agentId, req.providerId, req.endpointId.getD "default",
      resolvedModel,
      (if req.apiKey = "" then []
        else [("_CLOWN_KEYCHAIN_KEY", "clown-" ++ req.aliasName)]),
      req.args, req.workingDir,
      ⟨expandTemplate agentSourceHome req.aliasName req.agentId daemonHome,
        req.hooks, req.mcpServers⟩⟩, ?_, rfl, ?_, ?_⟩
    · simp [createProfile, hnx]
    · simp [createProfile, hnx]
    · intro kk vv
      by_cases hk : req.apiKey = ""
      · simp [createProfile, hnx, hk]
      · simp [createProfile, hnx, hk]

/-- C3 witness: the existing-file clause of the theorem at a concrete
request. -/
theorem c3_create_witness :
    createProfile "profiles" (fun _ => true) none (fun _ => "JSON")
      ⟨"work", "claude", "anthropic", none, "k", [], none, [], []⟩
      "~/x/{alias}" "ep" "m" = (.error .profileExists, []) :=
  (c3_create "profiles" (fun _ => true) none (fun _ => "JSON")
    ⟨"work", "claude", "anthropic", none, "k", [], none, [], []⟩
    "~/x/{alias}" "ep" "m").1 rfl

/-- A key with a binding is among the keys. -/
theorem alookup_some_mem_keys {α : Type} (l : List (String × α)) (k : String) (v : α)
    (h : alookup l k = some v) : k ∈ l.map Prod.fst := by
  induction l with
  | nil => exact absurd h (by simp [alookup])
  | cons e l ih =>
    simp only [alookup] at h
    by_cases he : e.1 = k
    · simp [← he]
    · rw [if_neg he] at h
      simp [ih h]

/-- A key without a binding is absent from the keys. -/
theorem alookup_eq_none_iff {α : Type} (l : List (String × α)) (k : String) :
    alookup l k = none ↔ k ∉ l.map Prod.fst := by
  induction l with
  | nil => simp [alookup]
  | cons e l ih =>
    simp only [alookup, List.map_cons, List.mem_cons]
    by_cases he : e.1 = k
    · rw [if_pos he]
      simp [he.symm]
    · rw [if_neg he, ih]
      constructor
      · intro h hor
        rcases hor with h1 | h2
        · exact he h1.symm
        · exact h h2
      · intro h h2
        exact h (Or.inr h2)

/-- A member of a key-nodup association list is found by lookup. -/
theorem alookup_of_mem_nodup {α : Type} (l : List (String × α)) (e : String × α)
    (hmem : e ∈ l) (hnd : (l.map Prod.fst).Nodup) : alookup l e.1 = some e.2 := by
  induction l with
  | nil => cases hmem
  | cons f l ih =>
    rcases List.mem_cons.mp hmem with he | he
    · subst he
      simp [alookup]
    · have hf : f.1 ≠ e.1 := by
        intro hk
        have : e.1 ∈ l.map Prod.fst := List.mem_map_of_mem Prod.fst he
        rw [← hk] at this
        exact (List.nodup_cons.mp hnd).1 this
      simp only [alookup, if_neg hf]
      exact ih he (List.nodup_cons.mp hnd).2

/-- Lookup through a single-key state update. -/
theorem alookup_update {α : Type} (l : List (String × α)) (tid : String)
    (g : α → α) (k : String) :
    alookup (l.map fun p => if p.1 = tid then (p.1, g p.2) else p) k =
      if k = tid then (alookup l k).map g else alookup l k := by
  induction l with
  | nil => by_cases hk : k = tid <;> simp [alookup, hk]
  | cons e l ih =>
    simp only [List.map_cons]
    by_cases het : e.1 = tid
    · rw [if_pos het]
      simp only [alookup, ih]
      by_cases hek : e.1 = k
      · rw [if_pos hek, if_pos hek]
        rw [← hek, het]
        simp
      · rw [if_neg hek, if_neg hek]
    · rw [if_neg het]
      simp only [alookup, ih]
      by_cases hek : e.1 = k
      · have hkt : ¬k = tid := by rw [← hek]; exact het
        rw [if_pos hek, if_neg hkt, if_pos hek]
      · rw [if_neg hek, if_neg hek]

/-- Lookup through a value-only map. -/
theorem alookup_map_snd {α : Type} (l : List (String × α)) (g : α → α) (k : String) :
    alookup (l.map fun p => (p.1, g p.2)) k = (alookup l k).map g := by
  induction l with
  | nil => simp [alookup]
  | cons e l ih =>
    simp only [List.map_cons, alookup, ih]
    by_cases hek : e.1 = k
    · rw [if_pos hek, if_pos hek]
      rfl
    · rw [if_neg hek, if_neg hek]

/-- Lookup through a filter keyed on the entry key. -/
theorem alookup_filter_key {α : Type} (l : List (String × α)) (p : String → Bool)
    (k : String) :
    alookup (l.filter fun e => !p e.1) k = if p k then none else alookup l k := by
  induction l with
  | nil => by_cases hp : p k <;> simp [alookup, hp]
  | cons e l ih =>
    by_cases hek : e.1 = k
    · by_cases hp : p k
      · rw [List.filter_cons]
        have hb : (!p e.1) = false := by rw [hek]; simp [hp]
        rw [hb]
        simp only [Bool.false_eq_true, if_false, ih, if_pos hp]
      · rw [List.filter_cons]
        have hb : (!p e.1) = true := by rw [hek]; simp [hp]
        rw [hb]
        simp only [if_true, alookup, if_pos hek, if_neg hp]
    · rw [List.filter_cons]
      cases hpe : (!p e.1) with
      | true =>
        simp only [if_true, alookup, if_neg hek, ih]
      | false =>
        simp only [Bool.false_eq_true, if_false, ih, alookup, if_neg hek]

/-- A successful lookup in an entry-filtered key-nodup list comes from the
original list, on an entry the filter kept. -/
theorem alookup_filter_entry {α : Type} (l : List (String × α))
    (q : String × α → Bool) (k : String) (v : α)
    (hnd : (l.map Prod.fst).Nodup)
    (h : alookup (l.filter q) k = some v) :
    alookup l k = some v ∧ q (k, v) = true := by
  induction l with
  | nil => exact absurd h (by simp [alookup])
  | cons e l ih =>
    have hnd' := (List.nodup_cons.mp hnd).2
    have hna := (List.nodup_cons.mp hnd).1
    rw [List.filter_cons] at h
    cases hqe : q e with
    | true =>
      rw [hqe] at h
      simp only [if_true, alookup] at h
      by_cases hek : e.1 = k
      · rw [if_pos hek] at h
        injection h with h
        subst h
        refine ⟨by simp [alookup, hek], ?_⟩
        have hpair : (k, e.2) = e := by
          rw [← hek]
        rw [hpair]
        exact hqe
      · rw [if_neg hek] at h
        obtain ⟨h1, h2⟩ := ih hnd' h
        exact ⟨by simp [alookup, if_neg hek, h1], h2⟩
    | false =>
      rw [hqe] at h
      simp only [Bool.false_eq_true, if_false] at h
      obtain ⟨h1, h2⟩ := ih hnd' h
      have hek : e.1 ≠ k := by
        intro hk
        exact hna (hk ▸ alookup_some_mem_keys l k v h1)
      exact ⟨by simp [alookup, if_neg hek, h1], h2⟩

/-- Keys are unchanged by a single-key state update. -/
theorem keys_update {α : Type} (l : List (String × α)) (tid : String) (g : α → α) :
    ((l.map fun p => if p.1 = tid then (p.1, g p.2) else p).map Prod.fst)
      = l.map Prod.fst := by
  induction l with
  | nil => rfl
  | cons e l ih =>
    simp only [List.map_cons, ih]
    by_cases he : e.1 = tid <;> simp [he]

/-- Keys are unchanged by a value-only map. -/
theorem keys_map_snd {α : Type} (l : List (String × α)) (g : α → α) :
    ((l.map fun p => (p.1, g p.2)).map Prod.fst) = l.map Prod.fst := by
  induction l with
  | nil => rfl
  | cons e l ih => simp only [List.map_cons, ih]

/-- The new-state shape of a successful create. -/
theorem createSession_some_shape (st : TMState) (pa newId : String) (st' : TMState)
    (hok : createSession st pa newId = some st') :
    st' = insertSession st pa newId := by
  cases hidx : alookup st.profileIndex pa with
  | none =>
    simp only [createSession, hidx] at hok
    injection hok with hok
    exact hok.symm
  | some exId =>
    cases hsess : alookup st.sessions exId with
    | none =>
      simp only [createSession, hidx, hsess] at hok
      injection hok with hok
      exact hok.symm
    | some sess =>
      simp only [createSession, hidx, hsess] at hok
      by_cases hterm : sess.state.isTerminated
      · rw [if_pos hterm] at hok
        injection hok with hok
        exact hok.symm
      · rw [if_neg hterm] at hok
        cases hok

/-- Every race-free manager transition preserves the invariant (the
unguarded Running write of the full relation does not: see the C4
counterexample). -/
theorem tmstep_preserves_inv (st st' : TMState) (hstep : TMStepOrderly st st')
    (hinv : TMInv st) : TMInv st' := by
  obtain ⟨hnd, htrack⟩ := hinv
  cases hstep
  case setRunning id0 s0 hs0 hlive0 =>
    constructor
    · simp only [markRunning]
      rw [keys_update st.sessions id0 fun s => { s with state := .running }]
      exact hnd
    · intro id s hs hlive
      simp only [markRunning] at hs
      rw [alookup_update st.sessions id0
        (fun s => { s with state := .running }) id] at hs
      by_cases hid : id = id0
      · subst hid
        rw [if_pos rfl, hs0] at hs
        simp only [Option.map_some', Option.some.injEq] at hs
        subst hs
        exact htrack id s0 hs0 hlive0
      · rw [if_neg hid] at hs
        exact htrack id s hs hlive
  case create pa newId hfresh hok =>
    have hshape := createSession_some_shape st pa newId st' hok
    subst hshape
    constructor
    · simp only [insertSession, List.map_cons]
      exact List.nodup_cons.mpr ⟨(alookup_eq_none_iff _ _).mp hfresh, hnd⟩
    · intro id s hs hlive
      simp only [insertSession, alookup] at hs
      by_cases hid : newId = id
      · rw [if_pos hid] at hs
        injection hs with hs
        subst hs
        simp [alookup, hid]
      · rw [if_neg hid] at hs
        have htr := htrack id s hs hlive
        by_cases hpa : pa = s.profileAlias
        · exfalso
          rw [hpa] at hok
          simp [createSession, htr, hs, hlive] at hok
        · simp only [insertSession, alookup, if_neg hpa]
          exact htr
  case terminate id0 ec =>
    constructor
    · simp only [markTerminated]
      rw [keys_update st.sessions id0 fun s => { s with state := .terminated ec }]
      exact hnd
    · intro id s hs hlive
      simp only [markTerminated] at hs
      rw [alookup_update st.sessions id0
        (fun s => { s with state := .terminated ec }) id] at hs
      by_cases hid : id = id0
      · rw [if_pos hid] at hs
        cases hsrc : alookup st.sessions id with
        | none => rw [hsrc] at hs; cases hs
        | some s0 =>
          rw [hsrc] at hs
          injection hs with hs
          subst hs
          simp [SessionState.isTerminated] at hlive
      · rw [if_neg hid] at hs
        exact htrack id s hs hlive
  case cleanup =>
    constructor
    · simp only [cleanupTerminated]
      exact hnd.sublist ((List.filter_sublist st.sessions).map Prod.fst)
    · intro id s hs hlive
      simp only [cleanupTerminated] at hs ⊢
      obtain ⟨h1, _⟩ := alookup_filter_entry st.sessions _ id s hnd hs
      have htr := htrack id s h1 hlive
      rw [alookup_filter_key st.profileIndex
        (fun a => st.sessions.any fun q =>
          q.2.state.isTerminated && q.2.profileAlias == a &&
            (alookup st.profileIndex a == some q.1)) s.profileAlias]
      have hrem : (st.sessions.any fun q =>
          q.2.state.isTerminated && q.2.profileAlias == s.profileAlias &&
            (alookup st.profileIndex s.profileAlias == some q.1)) = false := by
        rw [List.any_eq_false]
        intro q hq
        simp only [htr, Bool.and_eq_true, beq_iff_eq, not_and]
        intro hqconj heq
        obtain ⟨hqt, _⟩ := hqconj
        have hq1 : q.1 = id := (Option.some.inj heq).symm
        have hmem := alookup_of_mem_nodup st.sessions q hq hnd
        rw [hq1, h1] at hmem
        have hq2 : q.2 = s := (Option.some.inj hmem).symm
        rw [hq2] at hqt
        rw [hqt] at hlive
        cases hlive
      rw [hrem]
      simp only [Bool.false_eq_true, if_false]
      exact htr
  case terminateAllStep =>
    constructor
    · simp only [terminateAll]
      rw [keys_map_snd st.sessions fun s =>
        if s.state.isTerminated then s else { s with state := .terminated none }]
      exact hnd
    · intro id s hs hlive
      simp only [terminateAll] at hs
      rw [alookup_map_snd st.sessions
        (fun s => if s.state.isTerminated then s
                  else { s with state := .terminated none })] at hs
      cases hsrc : alookup st.sessions id with
      | none => rw [hsrc] at hs; cases hs
      | some s0 =>
        rw [hsrc] at hs
        have hs' : (if s0.state.isTerminated then s0
            else { s0 with state := .terminated none }) = s := Option.some.inj hs
        by_cases ht : s0.state.isTerminated
        · rw [if_pos ht] at hs'
          subst hs'
          rw [ht] at hlive
          cases hlive
        · rw [if_neg ht] at hs'
          subst hs'
          simp [SessionState.isTerminated] at hlive

/-- Every race-free reachable manager state satisfies the invariant. -/
theorem tmreachable_inv (st : TMState) (h : TMOrderlyReachable st) : TMInv st := by
  induction h with
  | refl =>
    refine ⟨by simp [TMState.empty], ?_⟩
    intro id s hs _
    simp [TMState.empty, alookup] at hs
  | tail hsteps hstep ih => exact tmstep_preserves_inv _ _ hstep ih

/-- C4 counterexample: with the PTY task's unguarded Running write
modelled (pty_bridge.rs, performed after create_session has returned),
the claimed at-most-one-live invariant fails on a concrete reachable
trace: create session s1 for alias work, terminate it while still
Starting, create s2 for the same alias (allowed, s1 is terminated), then
the late Running write of s1's task resurrects s1 — the resulting state
holds two non-terminated sessions for alias work. -/
theorem c4_counterexample :
    ¬ (∀ st, TMReachable st → ∀ a id1 id2,
        liveAt st id1 a → liveAt st id2 a → id1 = id2) := by
  intro h
  have r1 : TMReachable ⟨[("s1", ⟨"work", .starting⟩)], [("work", "s1")]⟩ :=
    Relation.ReflTransGen.tail Relation.ReflTransGen.refl
      (TMStep.create TMState.empty ⟨[("s1", ⟨"work", .starting⟩)], [("work", "s1")]⟩
        "work" "s1" (by decide) (by decide))
  have e2 : markTerminated ⟨[("s1", ⟨"work", .starting⟩)], [("work", "s1")]⟩ "s1" none =
      ⟨[("s1", ⟨"work", .terminated none⟩)], [("work", "s1")]⟩ := by decide
  have r2 : TMReachable ⟨[("s1", ⟨"work", .terminated none⟩)], [("work", "s1")]⟩ :=
    Relation.ReflTransGen.tail r1
      (e2 ▸ TMStep.terminate ⟨[("s1", ⟨"work", .starting⟩)], [("work", "s1")]⟩ "s1" none)
  have r3 : TMReachable ⟨[("s2", ⟨"work", .starting⟩), ("s1", ⟨"work", .terminated none⟩)],
      [("work", "s2"), ("work", "s1")]⟩ :=
    Relation.ReflTransGen.tail r2
      (TMStep.create ⟨[("s1", ⟨"work", .terminated none⟩)], [("work", "s1")]⟩
        ⟨[("s2", ⟨"work", .starting⟩), ("s1", ⟨"work", .terminated none⟩)],
          [("work", "s2"), ("work", "s1")]⟩
        "work" "s2" (by decide) (by decide))
  have e4 : markRunning ⟨[("s2", ⟨"work", .starting⟩), ("s1", ⟨"work", .terminated none⟩)],
      [("work", "s2"), ("work", "s1")]⟩ "s1" =
      ⟨[("s2", ⟨"work", .starting⟩), ("s1", ⟨"work", .running⟩)],
        [("work", "s2"), ("work", "s1")]⟩ := by decide
  have r4 : TMReachable ⟨[("s2", ⟨"work", .starting⟩), ("s1", ⟨"work", .running⟩)],
      [("work", "s2"), ("work", "s1")]⟩ :=
    Relation.ReflTransGen.tail r3
      (e4 ▸ TMStep.setRunning
        ⟨[("s2", ⟨"work", .starting⟩), ("s1", ⟨"work", .terminated none⟩)],
          [("work", "s2"), ("work", "s1")]⟩ "s1")
  have hcol := h ⟨[("s2", ⟨"work", .starting⟩), ("s1", ⟨"work", .running⟩)],
      [("work", "s2"), ("work", "s1")]⟩ r4 "work" "s1" "s2"
    ⟨⟨"work", .running⟩, by decide, by decide, rfl⟩
    ⟨⟨"work", .starting⟩, by decide, by decide, rfl⟩
  exact absurd hcol (by decide)

/-- C4 (amended): create_session rejects exactly when the profile index
maps the alias to a tracked, non-terminated session; on success it inserts
the fresh session and repoints the index, and every session the index
tracked for that alias was terminated; and in every reachable manager
state at most one session per profile alias is non-terminated, provided
the spawned PTY task's late Running write never lands on a session already
terminated (without that proviso the write can resurrect a session
terminated during Starting, as the counterexample shows). -/
theorem c4_one_session_per_profile :
    (∀ st pa newId exId sess,
        alookup st.profileIndex pa = some exId →
        alookup st.sessions exId = some sess →
        sess.state.isTerminated = false →
        createSession st pa newId = none)
  ∧ (∀ st pa newId st', createSession st pa newId = some st' →
        st' = insertSession st pa newId
        ∧ ∀ exId, alookup st.profileIndex pa = some exId →
            ∀ sess, alookup st.sessions exId = some sess →
              sess.state.isTerminated = true)
  ∧ (∀ st, TMOrderlyReachable st → ∀ a id1 id2,
        liveAt st id1 a → liveAt st id2 a → id1 = id2) := by
  refine ⟨?_, ?_, ?_⟩
  · intro st pa newId exId sess h1 h2 h3
    simp [createSession, h1, h2, h3]
  · intro st pa newId st' hok
    refine ⟨createSession_some_shape st pa newId st' hok, ?_⟩
    intro exId hidx sess hsess
    by_cases ht : sess.state.isTerminated
    · exact ht
    · exfalso
      simp [createSession, hidx, hsess, ht] at hok
  · intro st hreach a id1 id2 h1 h2
    have hinv : TMInv st := tmreachable_inv st hreach
    obtain ⟨s1, hs1, hl1, ha1⟩ := h1
    obtain ⟨s2, hs2, hl2, ha2⟩ := h2
    have t1 := hinv.2 id1 s1 hs1 hl1
    have t2 := hinv.2 id2 s2 hs2 hl2
    rw [ha1] at t1
    rw [ha2] at t2
    rw [t1] at t2
    exact Option.some.inj t2

/-- C4 witness: a state tracking one running session for the alias rejects
a second create, by the rejection clause of the theorem at concrete
inputs. -/
theorem c4_one_session_per_profile_witness :
    createSession ⟨[("s1", ⟨"work", .running⟩)], [("work", "s1")]⟩ "work" "s2" = none :=
  c4_one_session_per_profile.1 ⟨[("s1", ⟨"work", .running⟩)], [("work", "s1")]⟩
    "work" "s2" "s1" ⟨"work", .running⟩ (by decide) (by decide) (by decide)

/-- Ingesting a batch of JSONL lines: the seen set only grows, every kept
entry's dedup key was fresh and is recorded, and no two kept entries share
a dedup key. -/
theorem ingestLines_spec {α : Type} (parse : α → List String → Option UsageEntry) :
    ∀ (lines : List α) (seen : List String),
      (seen ⊆ (ingestLines parse lines seen).1)
    ∧ (∀ e ∈ (ingestLines parse lines seen).2,
        e.dedupKey ∈ (ingestLines parse lines seen).1 ∧ e.dedupKey ∉ seen)
    ∧ (ingestLines parse lines seen).2.Pairwise
        (fun e1 e2 => e1.dedupKey ≠ e2.dedupKey) := by
  intro lines
  induction lines with
  | nil =>
    intro seen
    exact ⟨fun x hx => hx, by simp [ingestLines], by simp [ingestLines]⟩
  | cons l rest ih =>
    intro seen
    cases hp : parse l seen with
    | none =>
      simpa [ingestLines, hp] using ih seen
    | some e =>
      by_cases hm : e.dedupKey ∈ seen
      · simpa [ingestLines, hp, hm] using ih seen
      · obtain ⟨ih1, ih2, ih3⟩ := ih (e.dedupKey :: seen)
        have hsub : seen ⊆ (ingestLines parse rest (e.dedupKey :: seen)).1 :=
          fun x hx => ih1 (List.mem_cons_of_mem _ hx)
        have hkey : e.dedupKey ∈ (ingestLines parse rest (e.dedupKey :: seen)).1 :=
          ih1 (List.mem_cons_self _ _)
        refine ⟨?_, ?_, ?_⟩
        · simpa [ingestLines, hp, hm] using hsub
        · intro e' he'
          simp only [ingestLines, hp, hm, if_false] at he' ⊢
          rcases List.mem_cons.mp he' with he' | he'
          · subst he'
            exact ⟨hkey, hm⟩
          · obtain ⟨g1, g2⟩ := ih2 e' he'
            exact ⟨g1, fun hx => g2 (List.mem_cons_of_mem _ hx)⟩
        · simp only [ingestLines, hp, hm, if_false]
          refine List.pairwise_cons.mpr ⟨?_, ih3⟩
          intro e' he' heq
          exact (ih2 e' he').2 (heq ▸ List.mem_cons_self _ _)

/-- The whole-file JSON path: the seen set only grows, and a produced entry
had a fresh dedup key which is recorded. -/
theorem parseNewJsonEntry_spec (file : Option OpenCodeRaw) (seen : List String) :
    (seen ⊆ (parseNewJsonEntry file seen).1)
  ∧ (∀ e, (parseNewJsonEntry file seen).2 = some e →
      e.dedupKey ∈ (parseNewJsonEntry file seen).1 ∧ e.dedupKey ∉ seen) := by
  cases file with
  | none => exact ⟨fun x hx => hx, by simp [parseNewJsonEntry]⟩
  | some f =>
    cases hid : f.id with
    | none =>
      refine ⟨fun x hx => ?_, by simp [parseNewJsonEntry, hid]⟩
      simpa [parseNewJsonEntry, hid] using hx
    | some id =>
      by_cases hm : ("opencode:" ++ id) ∈ seen
      · refine ⟨fun x hx => ?_, ?_⟩
        · simpa [parseNewJsonEntry, hid, hm] using hx
        · simp [parseNewJsonEntry, hid, hm]
      · cases htok : f.tokens with
        | none =>
          refine ⟨fun x hx => ?_, ?_⟩
          · simp only [parseNewJsonEntry, hid, hm, if_false, htok]
            exact List.mem_cons_of_mem _ hx
          · simp [parseNewJsonEntry, hid, hm, htok]
        | some t =>
          refine ⟨fun x hx => ?_, ?_⟩
          · simp only [parseNewJsonEntry, hid, hm, if_false, htok]
            exact List.mem_cons_of_mem _ hx
          · intro e he
            simp only [parseNewJsonEntry, hid, hm, if_false, htok] at he
            injection he with he
            subst he
            have hkey : UsageEntry.dedupKey
                { agent := .opencode, messageId := id, requestId := none,
                  model := f.model.getD "unknown",
                  tokens := { inputTokens := t.inputTokens.getD 0,
                              outputTokens := t.outputTokens.getD 0,
                              cacheCreationInputTokens := t.cacheWriteTokens.getD 0,
                              cacheReadInputTokens := t.cacheReadTokens.getD 0 },
                  projectPath := f.sessionId.getD "unknown" } = "opencode:" ++ id := rfl
            rw [hkey]
            simp only [parseNewJsonEntry, hid, hm, if_false, htok]
            exact ⟨List.mem_cons_self _ _, by simp⟩

/-- One watcher dispatch step: the seen set grows, broadcast entries carry
fresh recorded keys, and their keys are pairwise distinct. -/
theorem watchStep_spec (input : WatchInput) (seen : List String) :
    (seen ⊆ (watchStep input seen).1)
  ∧ (∀ e ∈ (watchStep input seen).2,
      e.dedupKey ∈ (watchStep input seen).1 ∧ e.dedupKey ∉ seen)
  ∧ (watchStep input seen).2.Pairwise (fun e1 e2 => e1.dedupKey ≠ e2.dedupKey) := by
  cases input with
  | claudeFile lines projectPath =>
    exact ingestLines_spec _ lines seen
  | codexFile lines sessionPath =>
    exact ingestLines_spec _ lines seen
  | opencodeFile file =>
    obtain ⟨h1, h2⟩ := parseNewJsonEntry_spec file seen
    cases hres : (parseNewJsonEntry file seen).2 with
    | none =>
      refine ⟨?_, ?_, ?_⟩
      · intro x hx
        simp only [watchStep]
        rw [show (parseNewJsonEntry file seen) =
          ((parseNewJsonEntry file seen).1, none) from Prod.ext rfl hres]
        exact h1 hx
      · intro e he
        simp only [watchStep] at he
        rw [show (parseNewJsonEntry file seen) =
          ((parseNewJsonEntry file seen).1, none) from Prod.ext rfl hres] at he
        simp at he
      · simp only [watchStep]
        rw [show (parseNewJsonEntry file seen) =
          ((parseNewJsonEntry file seen).1, none) from Prod.ext rfl hres]
        simp
    | some e0 =>
      have hre : (parseNewJsonEntry file seen) =
          ((parseNewJsonEntry file seen).1, some e0) := Prod.ext rfl hres
      refine ⟨?_, ?_, ?_⟩
      · intro x hx
        simp only [watchStep]
        rw [hre]
        exact h1 hx
      · intro e he
        simp only [watchStep] at he
        rw [hre] at he
        simp only [List.mem_singleton] at he
        rw [he]
        obtain ⟨g1, g2⟩ := h2 e0 hres
        refine ⟨?_, g2⟩
        simp only [watchStep]
        rw [hre]
        exact g1
      · simp only [watchStep]
        rw [hre]
        simp

/-- C5: over the watcher's lifetime (any run from any starting seen set,
and from the empty set at startup), the broadcast UsageUpdated entries
have pairwise distinct dedup keys — two entries with the same
(agent, message_id, request_id?) key broadcast at most once — because
every broadcast entry's key was fresh, is inserted into the process-wide
seen set at broadcast time, and the set only grows, on the JSONL and the
whole-file JSON paths alike. -/
theorem c5_watcher_dedup (inputs : List WatchInput) (seen : List String) :
    ((watchRun inputs seen).2.Pairwise fun e1 e2 => e1.dedupKey ≠ e2.dedupKey)
  ∧ (∀ e, e ∈ (watchRun inputs seen).2 →
      e.dedupKey ∈ (watchRun inputs seen).1 ∧ e.dedupKey ∉ seen)
  ∧ seen ⊆ (watchRun inputs seen).1 := by
  induction inputs generalizing seen with
  | nil =>
    exact ⟨by simp [watchRun], by simp [watchRun], fun x hx => hx⟩
  | cons input rest ih =>
    obtain ⟨s1, s2, s3⟩ := watchStep_spec input seen
    obtain ⟨r1, r2, r3⟩ := ih (watchStep input seen).1
    refine ⟨?_, ?_, ?_⟩
    · simp only [watchRun]
      rw [List.pairwise_append]
      refine ⟨s3, r1, ?_⟩
      intro a ha b hb
      intro heq
      have hka := (s2 a ha).1
      have hkb := (r2 b hb).2
      rw [← heq] at hkb
      exact hkb hka
    · intro e he
      simp only [watchRun] at he ⊢
      rcases List.mem_append.mp he with he | he
      · obtain ⟨g1, g2⟩ := s2 e he
        exact ⟨r3 g1, g2⟩
      · obtain ⟨g1, g2⟩ := r2 e he
        exact ⟨g1, fun hx => g2 (s1 hx)⟩
    · intro x hx
      simp only [watchRun]
      exact r3 (s1 hx)

/-- C5 witness: the theorem applied to a concrete run of two byte-identical
OpenCode files from an empty seen set — the one broadcast entry's key is
fresh and recorded. -/
theorem c5_watcher_dedup_witness :
    UsageEntry.dedupKey
      { agent := .opencode, messageId := "a1", requestId := none, model := "unknown",
        tokens := ⟨3, 0, 0, 0⟩, projectPath := "unknown" } ∈
      (watchRun [.opencodeFile (some ⟨some "a1", none, none, none,
          some ⟨some 3, none, none, none⟩⟩),
        .opencodeFile (some ⟨some "a1", none, none, none,
          some ⟨some 3, none, none, none⟩⟩)] []).1 :=
  ((c5_watcher_dedup [.opencodeFile (some ⟨some "a1", none, none, none,
      some ⟨some 3, none, none, none⟩⟩),
    .opencodeFile (some ⟨some "a1", none, none, none,
      some ⟨some 3, none, none, none⟩⟩)] []).2.1
    { agent := .opencode, messageId := "a1", requestId := none, model := "unknown",
      tokens := ⟨3, 0, 0, 0⟩, projectPath := "unknown" } (by decide)).1

/-- C6 counterexample: a parseable Claude line with a message id whose
token counters are all zero is still broadcast — the watcher emits exactly
one UsageUpdated entry with an all-zero token usage for it, where the
claim says no broadcast happens. -/
theorem c6_counterexample :
    (watchRun [.claudeFile [some ⟨none, some ⟨some ⟨some 0, some 0, some 0, some 0⟩⟩,
        none, some "m1", none⟩] "proj"] []).2 =
      [{ agent := .claude, messageId := "m1", requestId := none, model := "unknown",
         tokens := ⟨0, 0, 0, 0⟩, projectPath := "proj" }] := by
  decide

/-- C6 (amended): on the watcher's Claude JSONL path an entry is broadcast
exactly when it is parseable with a usage object, carries a message id,
and its dedup key is new; the token counters play no role (all-zero
counters are still broadcast).  First conjunct: parseability depends only
on the usage object and message id being present.  Second conjunct: a
parsed entry is kept exactly when its key is fresh. -/
theorem c6_claude_broadcast (r : ClaudeRaw) (proj : String) :
    ((parseClaudeLine (some r) proj).isSome ↔
      ((r.message.bind fun m => m.usage).isSome ∧ r.messageId.isSome))
  ∧ (∀ e seen, parseClaudeLine (some r) proj = some e →
      (ingestLines (fun l _ => parseClaudeLine l proj) [some r] seen).2 =
        if e.dedupKey ∈ seen then [] else [e]) := by
  constructor
  · cases hmsg : r.message with
    | none => simp [parseClaudeLine, hmsg]
    | some m =>
      cases husage : m.usage with
      | none => simp [parseClaudeLine, hmsg, husage]
      | some u =>
        cases hmid : r.messageId with
        | none => simp [parseClaudeLine, hmsg, husage, hmid]
        | some mid => simp [parseClaudeLine, hmsg, husage, hmid]
  · intro e seen hp
    by_cases hm : e.dedupKey ∈ seen
    · simp [ingestLines, hp, hm]
    · simp [ingestLines, hp, hm]

/-- C6 witness: the theorem's ingestion clause applied to the all-zero
concrete line of the counterexample with an empty seen set. -/
theorem c6_claude_broadcast_witness :
    (ingestLines (fun l _ => parseClaudeLine l "proj")
        [some ⟨none, some ⟨some ⟨some 0, some 0, some 0, some 0⟩⟩,
          none, some "m1", none⟩] []).2 =
      [{ agent := .claude, messageId := "m1", requestId := none, model := "unknown",
         tokens := ⟨0, 0, 0, 0⟩, projectPath := "proj" }] := by
  have h := (c6_claude_broadcast
      ⟨none, some ⟨some ⟨some 0, some 0, some 0, some 0⟩⟩, none, some "m1", none⟩
      "proj").2
    { agent := .claude, messageId := "m1", requestId := none, model := "unknown",
      tokens := ⟨0, 0, 0, 0⟩, projectPath := "proj" } [] (by decide)
  simpa using h

/-- No digit character is an underscore. -/
theorem digitChar_ne_underscore (d : Nat) : digitChar d ≠ '_' := by
  unfold digitChar
  split <;> decide

/-- Reading back a digit character below ten. -/
theorem digitVal_digitChar : ∀ d : Nat, d < 10 → digitVal (digitChar d) = d := by
  decide

/-- Decimal renderings contain no underscore. -/
theorem natDecimalCore_no_underscore :
    ∀ fuel n c, c ∈ natDecimalCore fuel n → c ≠ '_' := by
  intro fuel
  induction fuel with
  | zero =>
    intro n c hc
    simp [natDecimalCore] at hc
  | succ f ih =>
    intro n c hc
    simp only [natDecimalCore] at hc
    by_cases h : n < 10
    · rw [if_pos h] at hc
      simp only [List.mem_singleton] at hc
      subst hc
      exact digitChar_ne_underscore n
    · rw [if_neg h] at hc
      rcases List.mem_append.mp hc with hc | hc
      · exact ih (n / 10) c hc
      · simp only [List.mem_singleton] at hc
        subst hc
        exact digitChar_ne_underscore (n % 10)

theorem natDecimal_no_underscore (n : Nat) : '_' ∉ natDecimal n :=
  fun h => natDecimalCore_no_underscore (n + 1) n '_' h rfl

/-- Folding a trailing digit. -/
theorem decimalVal_append_digit (l : List Char) (c : Char) :
    decimalVal (l ++ [c]) = 10 * decimalVal l + digitVal c := by
  simp [decimalVal, List.foldl_append]

/-- The decimal rendering reads back to its argument. -/
theorem decimalVal_natDecimalCore :
    ∀ fuel n, n < fuel → decimalVal (natDecimalCore fuel n) = n := by
  intro fuel
  induction fuel with
  | zero => intro n h; omega
  | succ f ih =>
    intro n hn
    simp only [natDecimalCore]
    by_cases h : n < 10
    · rw [if_pos h]
      simp only [decimalVal, List.foldl_cons, List.foldl_nil, Nat.mul_zero, Nat.zero_add]
      exact digitVal_digitChar n h
    · rw [if_neg h]
      rw [decimalVal_append_digit]
      have hdiv : n / 10 < n := Nat.div_lt_self (by omega) (by omega)
      rw [ih (n / 10) (by omega)]
      rw [digitVal_digitChar (n % 10) (Nat.mod_lt n (by omega))]
      have := Nat.div_add_mod n 10
      omega

theorem decimalVal_natDecimal (n : Nat) : decimalVal (natDecimal n) = n :=
  decimalVal_natDecimalCore (n + 1) n (Nat.lt_succ_self n)

/-- Two underscore-free suffixes after the last underscore of equal lists
coincide. -/
theorem append_underscore_inj (a b : List Char)
    (ha : '_' ∉ a) (hb : '_' ∉ b) :
    ∀ u v : List Char, u ++ '_' :: a = v ++ '_' :: b → a = b := by
  intro u
  induction u with
  | nil =>
    intro v h
    cases v with
    | nil => simpa using h
    | cons c v' =>
      simp only [List.nil_append, List.cons_append] at h
      injection h with h1 h2
      exfalso
      apply ha
      rw [h2]
      exact List.mem_append.mpr (Or.inr (List.mem_cons_self _ _))
  | cons c u' ih =>
    intro v h
    cases v with
    | nil =>
      simp only [List.cons_append, List.nil_append] at h
      injection h with h1 h2
      exfalso
      apply hb
      rw [← h2]
      exact List.mem_append.mpr (Or.inr (List.mem_cons_self _ _))
    | cons c' v' =>
      simp only [List.cons_append] at h
      injection h with h1 h2
      exact ih v' h2

/-- The synthesised Codex message id determines its counter: underscores
cannot occur in the rendered counter, so the digits after the last
underscore compare, and they read back to the counters. -/
theorem codexMsgId_counter_inj (ts ts' : String) (c c' : Nat)
    (h : codexMsgId ts c = codexMsgId ts' c') : c = c' := by
  have hd := congrArg String.data h
  have e1 : (codexMsgId ts c).data =
      ("codex_".data ++ ts.data) ++ '_' :: natDecimal c := by
    simp [codexMsgId, String.data_append, List.append_assoc]
  have e2 : (codexMsgId ts' c').data =
      ("codex_".data ++ ts'.data) ++ '_' :: natDecimal c' := by
    simp [codexMsgId, String.data_append, List.append_assoc]
  rw [e1, e2] at hd
  have hdig := append_underscore_inj (natDecimal c) (natDecimal c')
    (natDecimal_no_underscore c) (natDecimal_no_underscore c') _ _ hd
  have := congrArg decimalVal hdig
  rwa [decimalVal_natDecimal, decimalVal_natDecimal] at this

/-- A shared prefix cancels in string append. -/
theorem strAppend_left_cancel (a b c : String) (h : a ++ b = a ++ c) : b = c := by
  have hd := congrArg String.data h
  rw [String.data_append, String.data_append] at hd
  have hbc : b.data = c.data := List.append_cancel_left hd
  cases b
  cases c
  exact congrArg String.mk hbc

/-- Evaluation of parse_codex_line on a token_count entry with usage data:
the message id is synthesised from the timestamp and the current seen-set
size. -/
theorem parseCodexLine_eval (r : CodexRaw) (sessionPath : String)
    (htype : r.entryType = some "token_count")
    (p : CodexPayloadRaw) (hp : r.payload = some p)
    (i : CodexInfoRaw) (hi : p.info = some i)
    (u : CodexUsageRaw) (hu : i.usage = some u) (s : List String) :
    parseCodexLine (some r) sessionPath s =
      some { agent := .codex,
             messageId := codexMsgId (r.timestamp.getD "unknown") s.length,
             requestId := none,
             model := (p.modelName.or (i.metadata.bind fun m => m.model)).getD "gpt-4o",
             tokens := { inputTokens := u.inputTokens.getD 0,
                         outputTokens := u.outputTokens.getD 0,
                         cacheCreationInputTokens := 0,
                         cacheReadInputTokens := u.cachedInputTokens.getD 0 },
             projectPath := sessionPath } := by
  simp [parseCodexLine, htype, hp, hi, hu]

/-- C10: on the Codex JSONL path the synthesised message id embeds the
seen-set size as a counter, so two byte-identical token_count lines get
distinct dedup keys and are both broadcast: ingesting the same parsed line
twice yields two entries whose message ids carry the counters n and n + 1
(n the seen-set size at the first line) and whose dedup keys differ. -/
theorem c10_codex_identical_lines (r : CodexRaw) (sessionPath : String)
    (seen : List String) (hinv : codexCounterInv seen)
    (htype : r.entryType = some "token_count")
    (p : CodexPayloadRaw) (hp : r.payload = some p)
    (i : CodexInfoRaw) (hi : p.info = some i)
    (u : CodexUsageRaw) (hu : i.usage = some u) :
    ∃ e1 e2,
      (ingestLines (fun l s => parseCodexLine l sessionPath s)
        [some r, some r] seen).2 = [e1, e2]
      ∧ e1.messageId = codexMsgId (r.timestamp.getD "unknown") seen.length
      ∧ e2.messageId = codexMsgId (r.timestamp.getD "unknown") (seen.length + 1)
      ∧ e1.dedupKey ≠ e2.dedupKey := by
  have hparse := parseCodexLine_eval r sessionPath htype p hp i hi u hu
  have hkey : ∀ n : Nat,
      (UsageEntry.dedupKey
        { agent := .codex,
          messageId := codexMsgId (r.timestamp.getD "unknown") n,
          requestId := none,
          model := (p.modelName.or (i.metadata.bind fun m => m.model)).getD "gpt-4o",
          tokens := { inputTokens := u.inputTokens.getD 0,
                      outputTokens := u.outputTokens.getD 0,
                      cacheCreationInputTokens := 0,
                      cacheReadInputTokens := u.cachedInputTokens.getD 0 },
          projectPath := sessionPath }) =
        "codex:" ++ codexMsgId (r.timestamp.getD "unknown") n := by
    intro n
    show ("codex" ++ ":") ++ codexMsgId (r.timestamp.getD "unknown") n = _
    rfl
  have hfresh1 : ("codex:" ++ codexMsgId (r.timestamp.getD "unknown") seen.length) ∉ seen := by
    intro hmem
    exact absurd (hinv _ _ hmem) (by omega)
  have hfresh2 : ("codex:" ++ codexMsgId (r.timestamp.getD "unknown") (seen.length + 1)) ∉
      (("codex:" ++ codexMsgId (r.timestamp.getD "unknown") seen.length) :: seen) := by
    intro hmem
    rcases List.mem_cons.mp hmem with heq | hmem'
    · have hm := strAppend_left_cancel "codex:" _ _ heq
      have := codexMsgId_counter_inj _ _ _ _ hm
      omega
    · exact absurd (hinv _ _ hmem') (by omega)
  refine ⟨⟨.codex, codexMsgId (r.timestamp.getD "unknown") seen.length, none,
      (p.modelName.or (i.metadata.bind fun m => m.model)).getD "gpt-4o",
      ⟨u.inputTokens.getD 0, u.outputTokens.getD 0, 0, u.cachedInputTokens.getD 0⟩,
      sessionPath⟩,
    ⟨.codex, codexMsgId (r.timestamp.getD "unknown") (seen.length + 1), none,
      (p.modelName.or (i.metadata.bind fun m => m.model)).getD "gpt-4o",
      ⟨u.inputTokens.getD 0, u.outputTokens.getD 0, 0, u.cachedInputTokens.getD 0⟩,
      sessionPath⟩, ?_, rfl, rfl, ?_⟩
  · simp only [ingestLines, hparse seen, hkey seen.length, hfresh1, if_false,
      List.length_cons]
    have hlen : (("codex:" ++ codexMsgId (r.timestamp.getD "unknown") seen.length)
        :: seen).length = seen.length + 1 := List.length_cons _ _
    simp only [ingestLines, hparse _, hkey _, hlen]
    rw [if_neg (by simpa using hfresh2)]
  · rw [hkey seen.length, hkey (seen.length + 1)]
    intro heq
    have hm := strAppend_left_cancel "codex:" _ _ heq
    have := codexMsgId_counter_inj _ _ _ _ hm
    simp at this

/-- C10 witness: the theorem applied to a concrete token_count line and the
empty seen set. -/
theorem c10_codex_identical_lines_witness :
    ∃ e1 e2,
      (ingestLines (fun l s => parseCodexLine l "sess" s)
        [some ⟨some "token_count", some "2025", some ⟨none, some ⟨some ⟨some 5, some 2, none⟩, none⟩⟩⟩,
         some ⟨some "token_count", some "2025", some ⟨none, some ⟨some ⟨some 5, some 2, none⟩, none⟩⟩⟩]
        []).2 = [e1, e2]
      ∧ e1.messageId = codexMsgId "2025" 0
      ∧ e2.messageId = codexMsgId "2025" 1
      ∧ e1.dedupKey ≠ e2.dedupKey := by
  have h := c10_codex_identical_lines
    ⟨some "token_count", some "2025", some ⟨none, some ⟨some ⟨some 5, some 2, none⟩, none⟩⟩⟩
    "sess" [] (fun ts c hmem => absurd hmem (List.not_mem_nil _)) rfl
    ⟨none, some ⟨some ⟨some 5, some 2, none⟩, none⟩⟩ rfl
    ⟨some ⟨some 5, some 2, none⟩, none⟩ rfl
    ⟨some 5, some 2, none⟩ rfl
  simpa using h

end Ringlet
